import Mathlib

/-!
# Verification of the kevin agent-loop recovery and application engine

Shallow embedding of the Python sources of the `kevin` repository:
`src/kevin/models/validation.py` (JSONValidator, DiffValidator),
`src/kevin/sandbox/local.py` (LocalSandbox.apply_patch),
`src/kevin/models/loop_state.py` (LoopState, StepResult) and
`src/kevin/loop_executor.py` (LoopExecutor).

Python strings are modelled as Lean `String`, Python dicts keyed by strings
as insertion-ordered association lists, exceptions as `Except`/`Option`,
and the external collaborators (Claude client, subprocess invocations) as
explicit environments supplying each call's outcome.
-/

namespace Kevin

/-! ## Python string primitives -/

/-- Whitespace class of Python `str.strip()` and `\s` of `re` (ASCII model). -/
def pyWs (c : Char) : Bool :=
  c = ' ' || c = Char.ofNat 9 || c = Char.ofNat 10 || c = Char.ofNat 13 ||
    c = Char.ofNat 11 || c = Char.ofNat 12

/-- The newline character. -/
def nlChar : Char := Char.ofNat 10

/-- Split a character list on a separator character; always nonempty,
`[] ↦ [[]]` (Python `"".split(sep) = [""]`). -/
def splitCharList (sep : Char) : List Char → List (List Char)
  | [] => [[]]
  | x :: t =>
      match splitCharList sep t with
      | [] => [[]]
      | h :: r => if x = sep then [] :: h :: r else (x :: h) :: r

/-- Python `s.split(sep)` for a one-character separator. -/
def pySplit (s : String) (sep : Char) : List String :=
  (splitCharList sep s.toList).map fun l => ⟨l⟩

/-- Right `strip` on a character list. -/
def rtrimC (l : List Char) : List Char :=
  (l.reverse.dropWhile pyWs).reverse

/-- `strip` on a character list. -/
def trimCharList (l : List Char) : List Char :=
  rtrimC (l.dropWhile pyWs)

/-- Python `str.strip()` (whitespace on both ends). -/
def pyStrip (s : String) : String :=
  ⟨trimCharList s.toList⟩

/-- Interpose a separator character between chunks. -/
def joinCharList (sep : Char) : List (List Char) → List Char
  | [] => []
  | [x] => x
  | x :: y :: t => x ++ sep :: joinCharList sep (y :: t)

/-- Python `"\n".join(lines)`. -/
def joinNl (lines : List String) : String :=
  ⟨joinCharList nlChar (lines.map String.toList)⟩

/-- Python `s.startswith(p)`. -/
def pyStartsWith (s p : String) : Bool :=
  p.toList.isPrefixOf s.toList

/-- Python `" ".join(parts)`. -/
def joinSp (parts : List String) : String :=
  String.intercalate " " parts

/-- Substring containment on character lists (`needle in hay` for Python strings). -/
def charsContain (hay needle : List Char) : Bool :=
  if needle.isPrefixOf hay then true
  else
    match hay with
    | [] => false
    | _ :: t => charsContain t needle

/-- Python `needle in hay` for strings. -/
def strContains (hay needle : String) : Bool :=
  charsContain hay.toList needle.toList

/-- Python `s[:n]` (by code points, as in Python). -/
def pyTake (s : String) (n : Nat) : String :=
  ⟨s.toList.take n⟩

/-- Python `s[-n:]` when `len(s) > n`, else `s`. -/
def pyTakeRight (s : String) (n : Nat) : String :=
  if s.toList.length > n then ⟨s.toList.drop (s.toList.length - n)⟩ else s

/-- `\w` character class of Python `re`: letters, digits, underscore (ASCII model). -/
def isWordChar (c : Char) : Bool :=
  c.isAlphanum || c = Char.ofNat 95

/-- The apostrophe character (code 39), written numerically. -/
def quoteChar : Char := Char.ofNat 39

/-- Python `item.strip("\"'")`: remove double/single quotes from both ends. -/
def stripQuotes (s : String) : String :=
  let isQuote := fun c => c = Char.ofNat 34 || c = quoteChar
  ⟨((s.toList.dropWhile isQuote).reverse.dropWhile isQuote).reverse⟩

/-- Python truthiness of a string: nonempty. -/
def pyTruthy (s : String) : Bool :=
  s ≠ ""

/-! ## JSON-like values (results of `json.loads` and of regex scraping) -/

/-- Python values that flow through the JSON validator: the result of
`json.loads` or of the regex scraping stage. Numbers keep their raw lexeme
(no claim depends on numeric values). -/
inductive JVal where
  | str (s : String)
  | bool (b : Bool)
  | num (raw : String)
  | null
  | list (items : List JVal)
  | dict (fields : List (String × JVal))
deriving Repr, BEq, Inhabited

/-- Python dict keyed by strings, insertion ordered. -/
abbrev JDict := List (String × JVal)

/-- Dict lookup (`key in data` / `data[key]`). -/
def dictGet (d : JDict) (k : String) : Option JVal :=
  match d with
  | [] => none
  | (k', v) :: t => if k' = k then some v else dictGet t k

/-- Dict assignment `data[key] = v`: replace in place or append. -/
def dictSet (d : JDict) (k : String) (v : JVal) : JDict :=
  match d with
  | [] => [(k, v)]
  | (k', v') :: t => if k' = k then (k, v) :: t else (k', v') :: dictSet t k v

/-- `key in data`. -/
def dictHas (d : JDict) (k : String) : Bool :=
  (dictGet d k).isSome

/-- Python truthiness of a `JVal` (`bool(value)`). -/
def jvalTruthy : JVal → Bool
  | .str s => pyTruthy s
  | .bool b => b
  | .num raw => raw ≠ "0" && raw ≠ "0.0"
  | .null => false
  | .list items => !items.isEmpty
  | .dict fields => !fields.isEmpty

mutual

/-- Python `repr` of a value, used inside `repr` of containers
(single quotes around strings, written via `quoteChar`). -/
def pyRepr : JVal → String
  | .str s => quoteChar.toString ++ s ++ quoteChar.toString
  | .bool b => if b then "True" else "False"
  | .num raw => raw
  | .null => "None"
  | .list items => "[" ++ String.intercalate ", " (pyReprList items) ++ "]"
  | .dict fields => "\x7b" ++ String.intercalate ", " (pyReprFields fields) ++ "\x7d"

/-- `repr` of the items of a list. -/
def pyReprList : List JVal → List String
  | [] => []
  | v :: t => pyRepr v :: pyReprList t

/-- `repr` of the entries of a dict. -/
def pyReprFields : List (String × JVal) → List String
  | [] => []
  | (k, v) :: t =>
      (quoteChar.toString ++ k ++ quoteChar.toString ++ ": " ++ pyRepr v) :: pyReprFields t

end

/-- Python `str(value)`. -/
def pyStr : JVal → String
  | .str s => s
  | v => pyRepr v

/-! ## `re.findall` emulation

Each concrete pattern of `validation.py` is rendered as a matcher
`List Char → Option (capture × rest)` that either matches at the current
position (returning the captures and the suffix after the match) or fails.
`scanAll` then reproduces `re.findall`: try the matcher at each position,
left to right, continuing after each non-overlapping match. All the
patterns consume at least one character, so fuel `= length + 1` suffices. -/

def scanAllFuel {α : Type} (m : List Char → Option (α × List Char)) :
    Nat → List Char → List α
  | 0, _ => []
  | _ + 1, [] => []
  | n + 1, c :: rest =>
      match m (c :: rest) with
      | some (a, rest') => a :: scanAllFuel m n rest'
      | none => scanAllFuel m n rest

/-- `re.findall(pattern, text)` for a matcher that consumes ≥ 1 character. -/
def scanAll {α : Type} (m : List Char → Option (α × List Char)) (text : String) : List α :=
  scanAllFuel m text.toList.length text.toList

/-- Split a list at the maximal prefix satisfying `p` (greedy character class). -/
def takeRun (p : Char → Bool) (cs : List Char) : List Char × List Char :=
  match cs with
  | [] => ([], [])
  | c :: t =>
      if p c then
        let (r, rest) := takeRun p t
        (c :: r, rest)
      else ([], cs)

/-- Consume one expected character. -/
def expectChar (c : Char) : List Char → Option (List Char)
  | [] => none
  | x :: t => if x = c then some t else none

/-- Consume a literal string, case-insensitively if `ci`. -/
def expectLit (ci : Bool) (lit : List Char) (cs : List Char) : Option (List Char) :=
  match lit, cs with
  | [], rest => some rest
  | _ :: _, [] => none
  | l :: lt, c :: ct =>
      if (if ci then c.toLower = l.toLower else c = l) then expectLit ci lt ct else none

/-- Matcher for `"([^"]+)"\s*:\s*"([^"]*)"` (pass 1: quoted key, quoted value). -/
def matchQuotedKV (cs : List Char) : Option ((String × String) × List Char) := do
  let dq := Char.ofNat 34
  let cs ← expectChar dq cs
  let (key, cs) := takeRun (fun c => c ≠ dq) cs
  if key.isEmpty then none else
  let cs ← expectChar dq cs
  let (_, cs) := takeRun pyWs cs
  let cs ← expectChar ':' cs
  let (_, cs) := takeRun pyWs cs
  let cs ← expectChar dq cs
  let (val, cs) := takeRun (fun c => c ≠ dq) cs
  let cs ← expectChar dq cs
  some ((⟨key⟩, ⟨val⟩), cs)

/-- Matcher for `"([^"]+)"\s*:\s*(true|false)` with `re.IGNORECASE` (pass 2). -/
def matchBoolKV (cs : List Char) : Option ((String × String) × List Char) := do
  let dq := Char.ofNat 34
  let cs ← expectChar dq cs
  let (key, cs) := takeRun (fun c => c ≠ dq) cs
  if key.isEmpty then none else
  let cs ← expectChar dq cs
  let (_, cs) := takeRun pyWs cs
  let cs ← expectChar ':' cs
  let (_, cs) := takeRun pyWs cs
  match expectLit true "true".toList cs with
  | some rest => some ((⟨key⟩, ⟨(cs.take 4).map Char.toLower⟩), rest)
  | none =>
    match expectLit true "false".toList cs with
    | some rest => some ((⟨key⟩, ⟨(cs.take 5).map Char.toLower⟩), rest)
    | none => none

/-- Matcher for `"([^"]+)"\s*:\s*\[(.*?)\]` with `re.DOTALL` (pass 3: quoted key,
bracketed array; the lazy `.*?` before `\]` takes everything up to the first `]`). -/
def matchQuotedArrayKV (cs : List Char) : Option ((String × String) × List Char) := do
  let dq := Char.ofNat 34
  let cs ← expectChar dq cs
  let (key, cs) := takeRun (fun c => c ≠ dq) cs
  if key.isEmpty then none else
  let cs ← expectChar dq cs
  let (_, cs) := takeRun pyWs cs
  let cs ← expectChar ':' cs
  let (_, cs) := takeRun pyWs cs
  let cs ← expectChar '[' cs
  let (content, cs) := takeRun (fun c => c ≠ ']') cs
  let cs ← expectChar ']' cs
  some ((⟨key⟩, ⟨content⟩), cs)

/-- Matcher for `(\w+)\s*:\s*\[(.*?)\]` with `re.DOTALL` (pass 4: bare key,
bracketed array). -/
def matchBareArrayKV (cs : List Char) : Option ((String × String) × List Char) := do
  let (key, cs) := takeRun isWordChar cs
  if key.isEmpty then none else
  let (_, cs) := takeRun pyWs cs
  let cs ← expectChar ':' cs
  let (_, cs) := takeRun pyWs cs
  let cs ← expectChar '[' cs
  let (content, cs) := takeRun (fun c => c ≠ ']') cs
  let cs ← expectChar ']' cs
  some ((⟨key⟩, ⟨content⟩), cs)

/-- Matcher for `(\w+)\s*:\s*([^,\[\]]+)` (pass 5: bare key, bare value).
The greedy `\s*` backtracks one character when the value class would
otherwise be empty, exactly as the `re` engine does. -/
def matchBareKV (cs : List Char) : Option ((String × String) × List Char) := do
  let valChar := fun c => c ≠ ',' && c ≠ '[' && c ≠ ']'
  let (key, cs) := takeRun isWordChar cs
  if key.isEmpty then none else
  let (_, cs) := takeRun pyWs cs
  let cs ← expectChar ':' cs
  let (ws, cs) := takeRun pyWs cs
  let (val, cs') := takeRun valChar cs
  if !val.isEmpty then
    some ((⟨key⟩, ⟨val⟩), cs')
  else
    match ws with
    | [] => none
    | _ =>
      -- backtrack `\s*` by one character; that character is in the value class
      some ((⟨key⟩, (ws.getLast?.map Char.toString).getD ""), cs)

/-! ## `JSONValidator._extract_key_value_pairs` -/

/-- Array-content parsing shared by passes 3 and 4:
`[item.strip().strip("\"'") for item in content.split(",")]`, dropping falsy items. -/
def parseArrayItems (content : String) : List JVal :=
  ((pySplit content ',').map fun item => stripQuotes (pyStrip item))
    |>.filter pyTruthy |>.map JVal.str

/-- Pass 1: quoted string values. -/
def kvPass1 (text : String) (d : JDict) : JDict :=
  (scanAll matchQuotedKV text).foldl (fun acc kv => dictSet acc kv.1 (JVal.str kv.2)) d

/-- Pass 2: boolean values (`data[key] = value.lower() == "true"`). -/
def kvPass2 (text : String) (d : JDict) : JDict :=
  (scanAll matchBoolKV text).foldl
    (fun acc kv => dictSet acc kv.1 (JVal.bool (kv.2 = "true"))) d

/-- Pass 3: quoted-key bracketed arrays. -/
def kvPass3 (text : String) (d : JDict) : JDict :=
  (scanAll matchQuotedArrayKV text).foldl
    (fun acc kv => dictSet acc kv.1 (JVal.list (parseArrayItems kv.2))) d

/-- Pass 4: bare-key bracketed arrays. -/
def kvPass4 (text : String) (d : JDict) : JDict :=
  (scanAll matchBareArrayKV text).foldl
    (fun acc kv => dictSet acc kv.1 (JVal.list (parseArrayItems kv.2))) d

/-- Pass 5: bare `key: value` tokens; only this pass is guarded by
`if key not in data`. -/
def kvPass5 (text : String) (d : JDict) : JDict :=
  (scanAll matchBareKV text).foldl
    (fun acc kv =>
      if dictHas acc kv.1 then acc
      else dictSet acc kv.1 (JVal.str (stripQuotes (pyStrip kv.2)))) d

/-- `JSONValidator._extract_key_value_pairs`. -/
def extractKeyValuePairs (text : String) : JDict :=
  kvPass5 text (kvPass4 text (kvPass3 text (kvPass2 text (kvPass1 text []))))

/-! ## `JSONValidator._extract_json`: strategies 1 and 2

Strategy 1 searches `\{[^{}]*(?:\{[^{}]*\}[^{}]*)*\}` (a brace block with
complete depth-one sub-blocks); strategy 2 searches `\{.*\}` with `re.DOTALL`
(first `{` through the last `}`), repairs common issues, and re-parses. -/

def lbrace : Char := Char.ofNat 123
def rbrace : Char := Char.ofNat 125

/-- Attempt the strategy-1 pattern at the current position, returning the
matched span. After `{` and a run of non-braces, the engine deterministically
either closes at `}`, or descends into one complete depth-one block, or fails. -/
def strat1MatchAt : Nat → List Char → Option (List Char)
  | 0, _ => none
  | _ + 1, [] => none
  | fuel + 1, c :: cs =>
      if c = lbrace then
        let (run, rest) := takeRun (fun x => x ≠ lbrace && x ≠ rbrace) cs
        match rest with
        | [] => none
        | r :: rt =>
            if r = rbrace then some (c :: run ++ [r])
            else
              -- `r = lbrace`: one complete inner block, then the tail of the
              -- pattern behaves like a fresh `\{[^{}]*(?:...)*\}` block
              let (irun, irest) := takeRun (fun x => x ≠ lbrace && x ≠ rbrace) rt
              match irest with
              | [] => none
              | i :: it =>
                  if i = rbrace then
                    let (run2, rest2) := takeRun (fun x => x ≠ lbrace && x ≠ rbrace) it
                    match strat1MatchAt fuel (lbrace :: rest2) with
                    | some (_ :: tailMatch) =>
                        some (c :: run ++ r :: irun ++ i :: run2 ++ tailMatch)
                    | _ => none
                  else none
      else none

/-- `re.search` of the strategy-1 pattern: leftmost match. -/
def strat1Search (text : String) : Option (List Char) :=
  let rec go : List Char → Option (List Char)
    | [] => none
    | c :: cs =>
        match strat1MatchAt (c :: cs).length (c :: cs) with
        | some m => some m
        | none => go cs
  go text.toList

/-- `re.search(r"\{.*\}", text, re.DOTALL)`: from the first `{` that is
followed by some `}`, greedily to the last `}` of the text. -/
def strat2Search (text : String) : Option (List Char) :=
  let cs := text.toList
  let rec go : List Char → Option (List Char)
    | [] => none
    | c :: rest =>
        if c = lbrace then
          match (rest.reverse.dropWhile (fun x => x ≠ rbrace)).reverse with
          | [] => go rest
          | upto => some (c :: upto)
        else go rest
  go cs

/-! ### `JSONValidator._fix_common_json_issues` (four `re.sub` passes) -/

/-- `re.sub(r",(\s*[}\]])", r"\1", s)`: drop trailing commas. -/
def fixTrailingCommas : Nat → List Char → List Char
  | 0, cs => cs
  | _ + 1, [] => []
  | fuel + 1, c :: cs =>
      if c = ',' then
        let (ws, rest) := takeRun pyWs cs
        match rest with
        | r :: rt =>
            if r = rbrace || r = ']' then ws ++ r :: fixTrailingCommas fuel rt
            else c :: fixTrailingCommas fuel cs
        | [] => c :: fixTrailingCommas fuel cs
      else c :: fixTrailingCommas fuel cs

/-- `re.sub(r"'([^']*)'", r'"\1"', s)`: single-quoted spans to double-quoted. -/
def fixSingleQuotes : Nat → List Char → List Char
  | 0, cs => cs
  | _ + 1, [] => []
  | fuel + 1, c :: cs =>
      if c = quoteChar then
        let (content, rest) := takeRun (fun x => x ≠ quoteChar) cs
        match rest with
        | _ :: rt => Char.ofNat 34 :: content ++ Char.ofNat 34 :: fixSingleQuotes fuel rt
        | [] => c :: fixSingleQuotes fuel cs
      else c :: fixSingleQuotes fuel cs

/-- `re.sub(r"(\w+):", r'"\1":', s)`: quote bare identifier keys. -/
def fixBareKeys : Nat → List Char → List Char
  | 0, cs => cs
  | _ + 1, [] => []
  | fuel + 1, c :: cs =>
      if isWordChar c then
        let (run, rest) := takeRun isWordChar cs
        match rest with
        | ':' :: rt =>
            Char.ofNat 34 :: c :: run ++ Char.ofNat 34 :: ':' :: fixBareKeys fuel rt
        | _ => c :: run ++ fixBareKeys fuel rest
      else c :: fixBareKeys fuel cs

/-- `\bTrue\b` → `true`, `\bFalse\b` → `false`, `\bNone\b` → `null`
(word-boundary substitutions, processed run by run). -/
def fixPyLiterals : Nat → List Char → List Char
  | 0, cs => cs
  | _ + 1, [] => []
  | fuel + 1, c :: cs =>
      if isWordChar c then
        let (run, rest) := takeRun isWordChar cs
        let word : List Char := c :: run
        let word' : List Char :=
          if word = "True".toList then "true".toList
          else if word = "False".toList then "false".toList
          else if word = "None".toList then "null".toList
          else word
        word' ++ fixPyLiterals fuel rest
      else c :: fixPyLiterals fuel cs

/-- `JSONValidator._fix_common_json_issues`. -/
def fixCommonJsonIssues (s : List Char) : List Char :=
  let s1 := fixTrailingCommas (s.length + 1) s
  let s2 := fixSingleQuotes (s1.length + 1) s1
  let s3 := fixBareKeys (s2.length + 1) s2
  fixPyLiterals (s3.length + 1) s3

/-! ### `json.loads` model

A strict recursive-descent parser for the JSON grammar (objects, arrays,
strings with the common escapes, numbers kept as raw lexemes, literals),
requiring the whole input to be consumed. Python's later duplicate object
keys overwrite earlier ones. -/

def isJsonWs (c : Char) : Bool :=
  c = ' ' || c = Char.ofNat 9 || c = Char.ofNat 10 || c = Char.ofNat 13

/-- Parse a JSON string body after the opening quote. -/
def jsonString : Nat → List Char → Option (List Char × List Char)
  | 0, _ => none
  | _ + 1, [] => none
  | fuel + 1, c :: cs =>
      if c = Char.ofNat 34 then some ([], cs)
      else if c = '\\' then
        match cs with
        | [] => none
        | e :: et =>
            let dec : Option Char :=
              if e = Char.ofNat 34 then some (Char.ofNat 34)
              else if e = '\\' then some '\\'
              else if e = '/' then some '/'
              else if e = 'n' then some (Char.ofNat 10)
              else if e = 't' then some (Char.ofNat 9)
              else if e = 'r' then some (Char.ofNat 13)
              else if e = 'b' then some (Char.ofNat 8)
              else if e = 'f' then some (Char.ofNat 12)
              else none
            match dec with
            | some d =>
                match jsonString fuel et with
                | some (body, rest) => some (d :: body, rest)
                | none => none
            | none => none
      else
        match jsonString fuel cs with
        | some (body, rest) => some (c :: body, rest)
        | none => none

/-- Parse a JSON number lexeme (raw). -/
def jsonNumber (cs : List Char) : Option (List Char × List Char) :=
  let (sign, r1) := match cs with
    | '-' :: t => ([('-' : Char)], t)
    | _ => ([], cs)
  let (intPart, r2) := takeRun Char.isDigit r1
  if intPart.isEmpty then none
  else
    let (frac, r3) := match r2 with
      | '.' :: t =>
          let (ds, rt) := takeRun Char.isDigit t
          if ds.isEmpty then ([], r2) else ('.' :: ds, rt)
      | _ => ([], r2)
    let (ex, r4) := match r3 with
      | e :: t =>
          if e = 'e' || e = 'E' then
            let (sgn, t2) := match t with
              | s :: t' => if s = '+' || s = '-' then ([s], t') else ([], t)
              | [] => ([], t)
            let (ds, rt) := takeRun Char.isDigit t2
            if ds.isEmpty then ([], r3) else (e :: sgn ++ ds, rt)
          else ([], r3)
      | [] => ([], r3)
    some (sign ++ intPart ++ frac ++ ex, r4)

mutual

/-- Parse one JSON value. -/
def jsonValue : Nat → List Char → Option (JVal × List Char)
  | 0, _ => none
  | fuel + 1, cs =>
      let cs := cs.dropWhile isJsonWs
      match cs with
      | [] => none
      | c :: rest =>
          if c = Char.ofNat 34 then
            match jsonString (rest.length + 1) rest with
            | some (body, r) => some (.str ⟨body⟩, r)
            | none => none
          else if c = lbrace then
            match (rest.dropWhile isJsonWs) with
            | r :: rt =>
                if r = rbrace then some (.dict [], rt)
                else
                  match jsonMembers fuel (rest.dropWhile isJsonWs) [] with
                  | some (d, r') => some (.dict d, r')
                  | none => none
            | [] => none
          else if c = '[' then
            match (rest.dropWhile isJsonWs) with
            | r :: rt =>
                if r = ']' then some (.list [], rt)
                else
                  match jsonElements fuel (rest.dropWhile isJsonWs) with
                  | some (xs, r') => some (.list xs, r')
                  | none => none
            | [] => none
          else if expectLit false "true".toList cs |>.isSome then
            some (.bool true, (expectLit false "true".toList cs).getD [])
          else if expectLit false "false".toList cs |>.isSome then
            some (.bool false, (expectLit false "false".toList cs).getD [])
          else if expectLit false "null".toList cs |>.isSome then
            some (.null, (expectLit false "null".toList cs).getD [])
          else
            match jsonNumber cs with
            | some (raw, r) => some (.num ⟨raw⟩, r)
            | none => none

/-- Parse `"key": value` members of an object, accumulating with overwrite. -/
def jsonMembers : Nat → List Char → JDict → Option (JDict × List Char)
  | 0, _, _ => none
  | fuel + 1, cs, acc =>
      let cs := cs.dropWhile isJsonWs
      match cs with
      | c :: rest =>
          if c = Char.ofNat 34 then
            match jsonString (rest.length + 1) rest with
            | some (key, r1) =>
                match (r1.dropWhile isJsonWs) with
                | ':' :: r2 =>
                    match jsonValue fuel r2 with
                    | some (v, r3) =>
                        let acc := dictSet acc ⟨key⟩ v
                        match (r3.dropWhile isJsonWs) with
                        | ',' :: r4 => jsonMembers fuel r4 acc
                        | e :: r4 => if e = rbrace then some (acc, r4) else none
                        | [] => none
                    | none => none
                | _ => none
            | none => none
          else none
      | [] => none

/-- Parse the elements of an array. -/
def jsonElements : Nat → List Char → Option (List JVal × List Char)
  | 0, _ => none
  | fuel + 1, cs =>
      match jsonValue fuel cs with
      | some (v, r1) =>
          match (r1.dropWhile isJsonWs) with
          | ',' :: r2 =>
              match jsonElements fuel r2 with
              | some (xs, r3) => some (v :: xs, r3)
              | none => none
          | ']' :: r2 => some ([v], r2)
          | _ => none
      | none => none

end

/-- `json.loads`: parse and require the whole input consumed. -/
def jsonLoads (cs : List Char) : Option JVal :=
  match jsonValue (cs.length + 1) cs with
  | some (v, rest) => if (rest.dropWhile isJsonWs).isEmpty then some v else none
  | none => none

/-- `JSONValidator._extract_json`: strategy 1 (strict brace block), strategy 2
(greedy block plus repairs), then regex scraping. A parse that does not yield
a dict is treated as a decode failure (the matched spans always start with
`{`, so a successful parse is always a dict). -/
def extractJson (text : String) : JDict :=
  let viaStrat1 : Option JDict :=
    match strat1Search text with
    | some m =>
        match jsonLoads m with
        | some (.dict d) => some d
        | _ => none
    | none => none
  match viaStrat1 with
  | some d => d
  | none =>
      let viaStrat2 : Option JDict :=
        match strat2Search text with
        | some m =>
            match jsonLoads (fixCommonJsonIssues m) with
            | some (.dict d) => some d
            | _ => none
        | none => none
      match viaStrat2 with
      | some d => d
      | none => extractKeyValuePairs text

/-! ## Schemas, repair, and the pydantic models `Plan` / `Reflection` -/

/-- The two schema names used at the call sites of `validate_and_repair_json`. -/
inductive SchemaKind where
  | plan
  | reflection
deriving Repr, DecidableEq

/-- Coarse field types of the hand-written schemas in `JSONValidator.__init__`. -/
inductive FieldTy where
  | array
  | string
  | boolean
deriving Repr, DecidableEq

/-- `self.schemas[...]["required"]`. -/
def schemaRequired : SchemaKind → List String
  | .plan => ["files_to_read", "commands_to_run", "rationale"]
  | .reflection => ["next_action", "lessons_learned", "should_retry"]

/-- `self.schemas[...]["properties"]` (name and coarse type). -/
def schemaProperties : SchemaKind → List (String × FieldTy)
  | .plan =>
      [("files_to_read", .array), ("commands_to_run", .array), ("rationale", .string)]
  | .reflection =>
      [("next_action", .string), ("lessons_learned", .string), ("should_retry", .boolean)]

/-- `isinstance` check used by `_validate_schema`. -/
def jvalIsTy (v : JVal) : FieldTy → Bool
  | .array => match v with | .list _ => true | _ => false
  | .string => match v with | .str _ => true | _ => false
  | .boolean => match v with | .bool _ => true | _ => false

/-- `JSONValidator._validate_schema`: required fields present and
present properties well-typed. -/
def validateSchema (data : JDict) (kind : SchemaKind) : Bool :=
  (schemaRequired kind).all (fun f => dictHas data f) &&
  (schemaProperties kind).all (fun p =>
    match dictGet data p.1 with
    | none => true
    | some v => jvalIsTy v p.2)

/-- Defaults synthesised by `_repair_schema_data` for a missing required field. -/
def schemaFieldDefault (f : String) (ty : FieldTy) : JVal :=
  match ty with
  | .array =>
      if f = "files_to_read" then .list [.str "README.md", .str "main.py"]
      else if f = "commands_to_run" then .list [.str "ls -la", .str "git status"]
      else .list []
  | .string => .str ("Auto-generated " ++ f)
  | .boolean => .bool true

/-- Type coercion performed by `_repair_schema_data` on a present field. -/
def schemaCoerce (ty : FieldTy) (v : JVal) : JVal :=
  match ty with
  | .array =>
      match v with
      | .list _ => v
      | .str s => .list (((pySplit s ',').map fun item => pyStrip item).map JVal.str)
      | _ => .list [.str (pyStr v)]
  | .string =>
      match v with
      | .str _ => v
      | _ => .str (pyStr v)
  | .boolean =>
      match v with
      | .bool _ => v
      | .str s =>
          .bool (s.toLower = "true" || s.toLower = "yes" || s.toLower = "1")
      | _ => .bool (jvalTruthy v)

/-- `JSONValidator._repair_schema_data`. -/
def repairSchemaData (data : JDict) (kind : SchemaKind) : JDict :=
  let withDefaults :=
    (schemaRequired kind).foldl
      (fun acc f =>
        if dictHas acc f then acc
        else
          let ty := ((schemaProperties kind).lookup f).getD .string
          dictSet acc f (schemaFieldDefault f ty))
      data
  (schemaProperties kind).foldl
    (fun acc p =>
      match dictGet acc p.1 with
      | none => acc
      | some v => dictSet acc p.1 (schemaCoerce p.2 v))
    withDefaults

/-! ### pydantic-v1 model instantiation

`Plan` requires `files_to_read : list[str]` and `commands_to_run : list[str]`
to be non-empty (custom `@validator`s raising `ValueError`, reported with
error type `value_error`), plus `rationale : str`. `Reflection` has
`next_action : str`, `lessons_learned : str`, `should_retry : bool = True`,
`recovery_strategy : Optional[RecoveryStrategy] = None`. pydantic v1 coerces
numbers and booleans to `str`, and strings/0-1 numbers to `bool`. -/

structure PlanObj where
  files_to_read : List String
  commands_to_run : List String
  rationale : String
deriving Repr, DecidableEq

inductive RecoveryStrategy where
  | regenerate_patch
  | direct_edit
  | incremental_patches
  | reread_files
  | file_edits
deriving Repr, DecidableEq

/-- Enum values of `RecoveryStrategy`. -/
def recoveryStrategyOfString (s : String) : Option RecoveryStrategy :=
  if s = "regenerate_patch" then some .regenerate_patch
  else if s = "direct_edit" then some .direct_edit
  else if s = "incremental_patches" then some .incremental_patches
  else if s = "reread_files" then some .reread_files
  else if s = "file_edits" then some .file_edits
  else none

def recoveryStrategyValue : RecoveryStrategy → String
  | .regenerate_patch => "regenerate_patch"
  | .direct_edit => "direct_edit"
  | .incremental_patches => "incremental_patches"
  | .reread_files => "reread_files"
  | .file_edits => "file_edits"

structure ReflectionObj where
  next_action : String
  lessons_learned : String
  should_retry : Bool
  recovery_strategy : Option RecoveryStrategy
deriving Repr, DecidableEq

/-- One entry of a pydantic `ValidationError.errors()` list: the leading
element of `loc` and the error `type` string. -/
structure FieldErr where
  loc : String
  ty : String
deriving Repr, DecidableEq

/-- pydantic v1 `str` field coercion. -/
def pyStrField (v : JVal) : Except String String :=
  match v with
  | .str s => .ok s
  | .bool b => .ok (if b then "True" else "False")
  | .num raw => .ok raw
  | _ => .error "type_error.str"

/-- pydantic v1 `bool` field coercion. -/
def pyBoolField (v : JVal) : Except String Bool :=
  match v with
  | .bool b => .ok b
  | .str s =>
      let l := s.toLower
      if l = "true" || l = "yes" || l = "on" || l = "1" then .ok true
      else if l = "false" || l = "no" || l = "off" || l = "0" then .ok false
      else .error "type_error.bool"
  | .num raw =>
      if raw = "0" then .ok false else if raw = "1" then .ok true
      else .error "type_error.bool"
  | _ => .error "type_error.bool"

/-- pydantic v1 `list[str]` field coercion. -/
def pyStrListField (v : JVal) : Except String (List String) :=
  match v with
  | .list items =>
      items.foldr
        (fun it acc =>
          match pyStrField it, acc with
          | .ok s, .ok t => .ok (s :: t)
          | .error e, _ => .error e
          | _, .error e => .error e)
        (.ok [])
  | _ => .error "type_error.list"

/-- `Plan(**data)`: field parsing, then the two non-empty `@validator`s.
Errors are collected per field as pydantic does. -/
def planNew (data : JDict) : Except (List FieldErr) PlanObj :=
  let filesR : Except FieldErr (List String) :=
    match dictGet data "files_to_read" with
    | none => .error ⟨"files_to_read", "value_error.missing"⟩
    | some v =>
        match pyStrListField v with
        | .error e => .error ⟨"files_to_read", e⟩
        | .ok l => if l.isEmpty then .error ⟨"files_to_read", "value_error"⟩ else .ok l
  let cmdsR : Except FieldErr (List String) :=
    match dictGet data "commands_to_run" with
    | none => .error ⟨"commands_to_run", "value_error.missing"⟩
    | some v =>
        match pyStrListField v with
        | .error e => .error ⟨"commands_to_run", e⟩
        | .ok l => if l.isEmpty then .error ⟨"commands_to_run", "value_error"⟩ else .ok l
  let ratR : Except FieldErr String :=
    match dictGet data "rationale" with
    | none => .error ⟨"rationale", "value_error.missing"⟩
    | some v =>
        match pyStrField v with
        | .error e => .error ⟨"rationale", e⟩
        | .ok s => .ok s
  match filesR, cmdsR, ratR with
  | .ok fs, .ok cs, .ok r => .ok ⟨fs, cs, r⟩
  | _, _, _ =>
      .error ((match filesR with | .error e => [e] | _ => []) ++
              (match cmdsR with | .error e => [e] | _ => []) ++
              (match ratR with | .error e => [e] | _ => []))

/-- `Reflection(**data)`. -/
def reflectionNew (data : JDict) : Except (List FieldErr) ReflectionObj :=
  let naR : Except FieldErr String :=
    match dictGet data "next_action" with
    | none => .error ⟨"next_action", "value_error.missing"⟩
    | some v => match pyStrField v with
        | .error e => .error ⟨"next_action", e⟩
        | .ok s => .ok s
  let llR : Except FieldErr String :=
    match dictGet data "lessons_learned" with
    | none => .error ⟨"lessons_learned", "value_error.missing"⟩
    | some v => match pyStrField v with
        | .error e => .error ⟨"lessons_learned", e⟩
        | .ok s => .ok s
  let srR : Except FieldErr Bool :=
    match dictGet data "should_retry" with
    | none => .ok true
    | some v => match pyBoolField v with
        | .error e => .error ⟨"should_retry", e⟩
        | .ok b => .ok b
  let rsR : Except FieldErr (Option RecoveryStrategy) :=
    match dictGet data "recovery_strategy" with
    | none => .ok none
    | some .null => .ok none
    | some (.str s) =>
        match recoveryStrategyOfString s with
        | some r => .ok (some r)
        | none => .error ⟨"recovery_strategy", "type_error.enum"⟩
    | some _ => .error ⟨"recovery_strategy", "type_error.enum"⟩
  match naR, llR, srR, rsR with
  | .ok na, .ok ll, .ok sr, .ok rs => .ok ⟨na, ll, sr, rs⟩
  | _, _, _, _ =>
      .error ((match naR with | .error e => [e] | _ => []) ++
              (match llR with | .error e => [e] | _ => []) ++
              (match srR with | .error e => [e] | _ => []) ++
              (match rsR with | .error e => [e] | _ => []))

/-! ### `JSONValidator._repair_model_data` and `validate_and_repair_json` -/

/-- `field_info.type_` of pydantic v1: the *inner* type of a field
(`str` for `list[str]`). -/
inductive ModelFieldTy where
  | str
  | bool
  | enumRS
deriving Repr, DecidableEq

/-- `model_class.__fields__`: inner type and non-`None` default of each field. -/
def modelFieldInfo (kind : SchemaKind) (f : String) : Option (ModelFieldTy × Option JVal) :=
  match kind with
  | .plan =>
      if f = "files_to_read" then some (.str, none)
      else if f = "commands_to_run" then some (.str, none)
      else if f = "rationale" then some (.str, none)
      else none
  | .reflection =>
      if f = "next_action" then some (.str, none)
      else if f = "lessons_learned" then some (.str, none)
      else if f = "should_retry" then some (.bool, some (.bool true))
      else if f = "recovery_strategy" then some (.enumRS, none)
      else none

/-- `JSONValidator._repair_model_data`: per reported error, fill a missing
field from its default or an auto-generated value, or coerce on the three
listed type errors. The `field_type == list` and `field_type == int`
branches of the source are unreachable for these two models and the
`value_error` type (from the custom validators) matches no branch. -/
def repairModelData (data : JDict) (kind : SchemaKind) (errors : List FieldErr) : JDict :=
  errors.foldl
    (fun rep e =>
      match modelFieldInfo kind e.loc with
      | none => rep
      | some (fty, dflt) =>
          if e.ty = "value_error.missing" then
            match dflt with
            | some dv => dictSet rep e.loc dv
            | none =>
                match fty with
                | .str => dictSet rep e.loc (.str ("Auto-generated " ++ e.loc))
                | .bool => dictSet rep e.loc (.bool true)
                | .enumRS => rep
          else if e.ty = "type_error.str" || e.ty = "type_error.integer" ||
              e.ty = "type_error.boolean" then
            match fty with
            | .str => dictSet rep e.loc (.str (pyStr ((dictGet rep e.loc).getD (.str ""))))
            | .bool =>
                let v := (dictGet rep e.loc).getD (.bool false)
                match v with
                | .str s =>
                    dictSet rep e.loc
                      (.bool (s.toLower = "true" || s.toLower = "yes" || s.toLower = "1"))
                | _ => dictSet rep e.loc (.bool (jvalTruthy v))
            | .enumRS => rep
          else rep)
    data

/-- The object returned by `validate_and_repair_json` at its two call sites. -/
inductive ModelObj where
  | plan (p : PlanObj)
  | reflection (r : ReflectionObj)
deriving Repr, DecidableEq

/-- `model_class(**data)` for the model paired with each schema name. -/
def modelNew (kind : SchemaKind) (d : JDict) : Except (List FieldErr) ModelObj :=
  match kind with
  | .plan => (planNew d).map .plan
  | .reflection => (reflectionNew d).map .reflection

/-- `JSONValidator.validate_and_repair_json`. A `.error` result models a
`ValidationError` escaping the function (the second instantiation on either
repair path is not guarded by any `try`). -/
def validateAndRepairJson (text : String) (kind : SchemaKind) :
    Except (List FieldErr) ModelObj :=
  let data := extractJson text
  if validateSchema data kind then
    match modelNew kind data with
    | .ok m => .ok m
    | .error e => modelNew kind (repairModelData data kind e)
  else
    modelNew kind (repairSchemaData data kind)

/-- The schema a returned object belongs to. -/
def modelKind : ModelObj → SchemaKind
  | .plan _ => .plan
  | .reflection _ => .reflection

/-- The returned object's fields, viewed again as a JSON mapping. -/
def objToDict : ModelObj → JDict
  | .plan p =>
      [("files_to_read", .list (p.files_to_read.map JVal.str)),
       ("commands_to_run", .list (p.commands_to_run.map JVal.str)),
       ("rationale", .str p.rationale)]
  | .reflection r =>
      [("next_action", .str r.next_action),
       ("lessons_learned", .str r.lessons_learned),
       ("should_retry", .bool r.should_retry)]

/-- The returned object carries every required field of its schema,
well-typed. -/
def modelSchemaOk (m : ModelObj) : Bool :=
  validateSchema (objToDict m) (modelKind m)

/-- `Except.isOk`. -/
def exceptIsOk {ε α : Type} : Except ε α → Bool
  | .ok _ => true
  | .error _ => false

/-! ## `DiffValidator` -/

/-- `re` match of `^(---|\+\+\+)\s+(.+)` against one line: marker, at least
one whitespace, at least one further character (`.` matches anything but a
newline, and lines contain none). -/
def fileHeaderMatch (line : String) : Bool :=
  (pyStartsWith line "---" || pyStartsWith line "+++") &&
    (match (line.toList.drop 3) with
     | c :: _ :: _ => pyWs c
     | _ => false)

/-- `re` match of `^@@\s+-(\d+)(?:,(\d+))?\s+\+(\d+)(?:,(\d+))?\s+@@`. -/
def hunkHeaderMatch (line : String) : Bool :=
  let afterRange : List Char → Option (List Char) := fun cs =>
    let (ds, r) := takeRun Char.isDigit cs
    if ds.isEmpty then none
    else
      match r with
      | ',' :: t =>
          let (ds2, r2) := takeRun Char.isDigit t
          if ds2.isEmpty then some r else some r2
      | _ => some r
  (do
    let cs ← expectLit false "@@".toList line.toList
    let (ws1, cs) := takeRun pyWs cs
    if ws1.isEmpty then none else
    let cs ← expectChar '-' cs
    let cs ← afterRange cs
    let (ws2, cs) := takeRun pyWs cs
    if ws2.isEmpty then none else
    let cs ← expectChar '+' cs
    let cs ← afterRange cs
    let (ws3, cs) := takeRun pyWs cs
    if ws3.isEmpty then none else
    let _ ← expectLit false "@@".toList cs
    some ()).isSome

/-- `DiffValidator._is_valid_diff`: some line matches the file-header pattern
and some line matches the hunk-header pattern (`split("\n")` never yields an
empty list, so the `if not lines` guard of the source is vacuous). -/
def isValidDiff (diff_text : String) : Bool :=
  let lines := pySplit (pyStrip diff_text) nlChar
  lines.any fileHeaderMatch && lines.any hunkHeaderMatch

/-- Matcher for `(\w+\.\w+)`. -/
def matchDottedName (cs : List Char) : Option (String × List Char) := do
  let (a, cs) := takeRun isWordChar cs
  if a.isEmpty then none else
  let cs ← expectChar '.' cs
  let (b, cs) := takeRun isWordChar cs
  if b.isEmpty then none else
  some (⟨a ++ '.' :: b⟩, cs)

/-- Matcher for `([a-zA-Z0-9_/]+\.py)` and its `.js`/`.ts` variants. -/
def matchPathWithExt (ext : String) (cs : List Char) : Option (String × List Char) := do
  let pathChar := fun c => c.isAlphanum || c = Char.ofNat 95 || c = '/'
  let (a, cs) := takeRun pathChar cs
  if a.isEmpty then none else
  let cs ← expectLit false ('.' :: ext.toList) cs
  some (⟨a ++ '.' :: ext.toList⟩, cs)

/-- Deduplication standing in for Python's `list(set(file_paths))` (whose
iteration order is hash-dependent); first occurrence kept. -/
def dedupKeepFirst : List String → List String
  | [] => []
  | x :: t => x :: (dedupKeepFirst t).filter (fun y => y ≠ x)

/-- `DiffValidator._extract_file_paths`. -/
def extractFilePaths (text : String) : List String :=
  let paths :=
    scanAll matchDottedName text ++
    scanAll (matchPathWithExt "py") text ++
    scanAll (matchPathWithExt "js") text ++
    scanAll (matchPathWithExt "ts") text
  dedupKeepFirst paths

/-- `DiffValidator._create_basic_diff`. -/
def createBasicDiff (content : String) : String :=
  let lines := pySplit (pyStrip content) nlChar
  let has_additions := lines.any (fun l => pyStartsWith l "+")
  let has_deletions := lines.any (fun l => pyStartsWith l "-")
  let headers :=
    if has_additions && !has_deletions then ["--- /dev/null", "+++ b/new_file"]
    else if has_deletions && !has_additions then ["--- a/existing_file", "+++ /dev/null"]
    else ["--- a/existing_file", "+++ b/existing_file"]
  let body := lines.filterMap fun line =>
    if pyTruthy (pyStrip line) then
      if !(pyStartsWith line "+" || pyStartsWith line "-" || pyStartsWith line " ") then
        some (" " ++ line)
      else some line
    else none
  joinNl (headers ++ ["@@ -1,1 +1,1 @@"] ++ body)

/-- `DiffValidator._repair_diff`. -/
def repairDiff (diff_text : String) : String :=
  let lines := pySplit (pyStrip diff_text) nlChar
  let file_paths := extractFilePaths diff_text
  match file_paths with
  | [] => createBasicDiff diff_text
  | current_file :: _ =>
      let body := lines.filterMap fun line =>
        if pyTruthy (pyStrip line) &&
            !(pyStartsWith line "---" || pyStartsWith line "+++" || pyStartsWith line "@@") then
          if pyStartsWith line "+" || pyStartsWith line "-" then some line
          else some (" " ++ line)
        else none
      joinNl (["--- a/" ++ current_file, "+++ b/" ++ current_file, "@@ -1,1 +1,1 @@"] ++ body)

/-- The markdown-fence stripping prologue of `validate_and_repair_diff`.
`none` models the `IndexError` raised by `lines[-1]` when the fence
stripping leaves no lines (any input whose `strip()` is a single line
starting with three backticks). -/
def stripFences (cleaned : String) : Option String :=
  if pyStartsWith cleaned "```" then
    let lines := pySplit cleaned nlChar
    let lines := if pyStartsWith (lines.headD "") "```" then lines.drop 1 else lines
    match lines.getLast? with
    | none => none
    | some last =>
        let lines := if pyStrip last = "```" then lines.dropLast else lines
        some (joinNl lines)
  else some cleaned

/-- `DiffValidator.validate_and_repair_diff`. -/
def validateAndRepairDiff (diff_text : String) : Option String :=
  match stripFences (pyStrip diff_text) with
  | none => none
  | some cleaned =>
      if isValidDiff cleaned then some cleaned
      else some (repairDiff cleaned)

/-! ## `LocalSandbox.apply_patch`

The subprocess invocations (`git apply ...`, `patch --batch ...`) are
external; an `ApplyEnv` supplies the `CmdResult` of each invocation as a
function of the strategy arguments and the diff text fed to it. `apply_patch`
additionally returns the list of strategies actually attempted, in order.
Wall-clock durations are not modelled. -/

/-- Result of a subprocess invocation (`CmdResult` of `sandbox/local.py`,
without the wall-clock duration). -/
structure CmdResult where
  returncode : Int
  stdout : String
  stderr : String
deriving Repr, DecidableEq

/-- One attempted application strategy. -/
inductive ApplyAttempt where
  | git (args : List String)
  | patchUtil (stripLevel : String)
deriving Repr, DecidableEq

/-- Outcomes of the external apply tools. -/
structure ApplyEnv where
  runGitApply : List String → String → CmdResult
  runPatchUtil : String → String → CmdResult

/-- Line prefixes that mark diff-shaped content in `_strip_diff_wrappers`. -/
def diffLinePrefixes : List String := ["---", "+++", "diff", "@@", "+", "-", " "]

/-- Narrative sentence starts skipped by `_strip_diff_wrappers`. -/
def proseStarts : List String := ["Here", "This", "The", "I", "We"]

/-- Body of `LocalSandbox._strip_diff_wrappers`: fence toggling plus prose
filtering. -/
def stripDiffWrappersGo : Bool → List String → List String
  | _, [] => []
  | inCode, line :: rest =>
      if pyStartsWith (pyStrip line) "```" then stripDiffWrappersGo (!inCode) rest
      else if inCode then stripDiffWrappersGo inCode rest
      else if !(diffLinePrefixes.any (fun p => pyStartsWith line p)) &&
          (!(pyTruthy (pyStrip line)) || proseStarts.any (fun p => pyStartsWith (pyStrip line) p)) then
        stripDiffWrappersGo inCode rest
      else line :: stripDiffWrappersGo inCode rest

/-- `LocalSandbox._strip_diff_wrappers`. -/
def stripDiffWrappers (diff : String) : String :=
  joinNl (stripDiffWrappersGo false (pySplit diff nlChar))

/-- `LocalSandbox._is_valid_diff_format`. -/
def isValidDiffFormat (diff : String) : Bool :=
  let lines := pySplit diff nlChar
  (lines.any (fun l => pyStartsWith l "---") && lines.any (fun l => pyStartsWith l "+++")) ||
    lines.any (fun l => pyStartsWith l "diff --git")

/-- `LocalSandbox._normalize_diff_paths`. -/
def normalizeDiffPaths (diff : String) : String :=
  joinNl ((pySplit diff nlChar).map fun line =>
    if pyStartsWith line "--- a/" || pyStartsWith line "+++ b/" then line
    else if pyStartsWith line "--- " then "--- a/" ++ pyStrip ⟨line.toList.drop 4⟩
    else if pyStartsWith line "+++ " then "+++ b/" ++ pyStrip ⟨line.toList.drop 4⟩
    else line)

/-- The five unconditional `git apply` strategies, in source order. -/
def gitBaseStrategies : List (List String) := [
  ["git", "apply", "--check"],
  ["git", "apply", "--whitespace=fix", "--ignore-whitespace"],
  ["git", "apply", "-p0", "--whitespace=fix", "--ignore-whitespace"],
  ["git", "apply", "-p1", "--whitespace=fix", "--ignore-whitespace"],
  ["git", "apply", "-p2", "--whitespace=fix", "--ignore-whitespace"]]

/-- The `for strategy in strategies` loop: returns the first success (if
any), the `last_error` accumulator, and the strategies attempted. -/
def runGitStrategies (env : ApplyEnv) (diff : String) :
    List (List String) → String → Option CmdResult × String × List (List String)
  | [], lastError => (none, lastError, [])
  | s :: rest, lastError =>
      let r := env.runGitApply s diff
      if r.returncode = 0 && strContains (joinSp s) "apply" then (some r, lastError, [s])
      else
        let (res, le, tr) := runGitStrategies env diff rest r.stderr
        (res, le, s :: tr)

/-- The `for prefix in patch_strategies` fallback loop: first success, the
result of the last attempt, and the strip levels attempted. -/
def runPatchFallback (env : ApplyEnv) (diff : String) :
    List String → Option CmdResult × Option CmdResult × List String
  | [] => (none, none, [])
  | lvl :: rest =>
      let r := env.runPatchUtil lvl diff
      if r.returncode = 0 then (some r, some r, [lvl])
      else
        let (res, last, tr) := runPatchFallback env diff rest
        (res, some (last.getD r), lvl :: tr)

/-- Python `s.replace(pat, repl)`: non-overlapping, left to right
(no-op for an empty pattern, which never occurs here). -/
def replaceCharList (pat repl : List Char) : Nat → List Char → List Char
  | 0, cs => cs
  | _ + 1, [] => []
  | n + 1, c :: cs =>
      if pat.isPrefixOf (c :: cs) && !pat.isEmpty then
        repl ++ replaceCharList pat repl n (List.drop pat.length (c :: cs))
      else c :: replaceCharList pat repl n cs

/-- Python `s.replace(pat, repl)` on strings. -/
def pyReplace (s pat repl : String) : String :=
  ⟨replaceCharList pat.toList repl.toList (s.toList.length + 1) s.toList⟩

/-- Steps 2 of `apply_patch`: strip wrappers, normalise line endings,
strip. -/
def preprocessDiff (unified_diff : String) : String :=
  pyStrip (pyReplace (stripDiffWrappers unified_diff)
    (String.mk [Char.ofNat 13, Char.ofNat 10]) "\n")

/-- `LocalSandbox.apply_patch`, instrumented with the ordered list of
attempted strategies. (`diff_preview` of the source is computed but never
used; it is omitted.) -/
def applyPatch (env : ApplyEnv) (unified_diff : String) : CmdResult × List ApplyAttempt :=
  let first20 := joinNl ((pySplit unified_diff nlChar).take 20)
  let diff := preprocessDiff unified_diff
  if !isValidDiffFormat diff then
    ({ returncode := 1, stdout := "",
       stderr := "Invalid diff format. Expected unified diff (---/+++) or git-style (diff --git). Got: "
         ++ first20 }, [])
  else
    let diff := normalizeDiffPaths diff
    let strategies := gitBaseStrategies ++
      (if strContains diff "diff --git" && strContains diff "index " then
        [["git", "apply", "-3"]]
      else [])
    match runGitStrategies env diff strategies "" with
    | (some r, _, tr) => (r, tr.map ApplyAttempt.git)
    | (none, lastError, tr) =>
        match runPatchFallback env diff ["-p0", "-p1", "-p2"] with
        | (some r, _, ptr) =>
            (r, tr.map ApplyAttempt.git ++ ptr.map ApplyAttempt.patchUtil)
        | (none, lastPatch, ptr) =>
            let patchStderr := match lastPatch with | some l => l.stderr | none => ""
            let errorMsg := "All patch strategies failed.\n" ++
              "Last git error: " ++ lastError ++ "\n" ++
              "Patch utility error: " ++ patchStderr ++ "\n" ++
              "Diff preview (first 20 lines):\n" ++ first20
            ({ returncode := 1, stdout := "", stderr := errorMsg },
             tr.map ApplyAttempt.git ++ ptr.map ApplyAttempt.patchUtil)

/-! ## `loop_state.py`: `StepType`, `StepStatus`, `StepResult`, `LoopState` -/

inductive StepType where
  | plan
  | fetch_files
  | propose_patch
  | apply
  | run_tests
  | reflect
deriving Repr, DecidableEq

inductive StepStatus where
  | pending
  | in_progress
  | completed
  | failed
  | skipped
deriving Repr, DecidableEq

/-- `StepResult` (durations and the unused `metadata` dict not modelled). -/
structure StepResult where
  step_type : StepType
  status : StepStatus
  output : Option String := none
  error : Option String := none
deriving Repr, DecidableEq

/-- `Patch` of `types.py` (its `---`/`+++` validator is exercised at
construction by the client, not by the loop; the loop stores the value). -/
structure Patch where
  unified_diff : String
deriving Repr, DecidableEq

/-- `LoopState` (token/duration metrics not modelled). -/
structure LoopState where
  max_steps : Nat := 15
  current_step : Nat := 0
  dry_run : Bool := false
  is_completed : Bool := false
  is_failed : Bool := false
  should_stop : Bool := false
  step_results : List StepResult := []
  current_plan : Option PlanObj := none
  current_patch : Option Patch := none
  test_output : Option String := none
deriving Repr, DecidableEq

/-- `LoopState.can_continue`. -/
def LoopState.canContinue (st : LoopState) : Bool :=
  !st.is_completed && !st.is_failed && !st.should_stop &&
    decide (st.current_step < st.max_steps)

/-- `LoopState.add_step_result` (duration accounting not modelled). -/
def LoopState.addStepResult (st : LoopState) (r : StepResult) : LoopState :=
  { st with step_results := st.step_results ++ [r] }

/-- `LoopState.get_last_step_result`. -/
def LoopState.getLastStepResult (st : LoopState) : Option StepResult :=
  st.step_results.getLast?

/-- `LoopState.get_test_output_tail`. -/
def LoopState.getTestOutputTail (st : LoopState) (lines : Nat) : String :=
  match st.test_output with
  | none => ""
  | some t =>
      if t = "" then ""
      else
        let ls := pySplit t nlChar
        if ls.length ≤ lines then t else joinNl (ls.drop (ls.length - lines))

/-- `LoopState.mark_completed`. -/
def LoopState.markCompleted (st : LoopState) : LoopState :=
  { st with is_completed := true, should_stop := true }

/-- `LoopState.mark_failed`: sets both flags and appends the synthetic
FAILED REFLECT record. -/
def LoopState.markFailed (st : LoopState) (error : String) : LoopState :=
  ({ st with is_failed := true, should_stop := true }).addStepResult
    ⟨.reflect, .failed, none, some error⟩

/-- `LoopState.increment_step`. -/
def LoopState.incrementStep (st : LoopState) : LoopState :=
  { st with current_step := st.current_step + 1 }

/-! ## `loop_executor.py`

The Claude client and the sandbox are external collaborators; an `Env`
supplies each call's outcome (`Except` models a raised exception, caught by
the handler's own `try`/`except`). A command's recorded outcome. -/

/-- One entry of `context.command_results`. -/
structure CmdRecord where
  command : String
  returncode : Int
  stdout : String
  stderr : String
deriving Repr, DecidableEq

/-- The fields of `ModelContext` that the loop executor reads or writes
(`file_contents` as an insertion-ordered dict). -/
structure ModelContext where
  file_contents : List (String × String) := []
  command_results : List CmdRecord := []
  test_command : Option String := none
deriving Repr, DecidableEq

/-- String-dict lookup. -/
def strDictGet (d : List (String × String)) (k : String) : Option String :=
  match d with
  | [] => none
  | (k', v) :: t => if k' = k then some v else strDictGet t k

/-- String-dict assignment (replace in place or append). -/
def strDictSet (d : List (String × String)) (k : String) (v : String) :
    List (String × String) :=
  match d with
  | [] => [(k, v)]
  | (k', v') :: t => if k' = k then (k, v) :: t else (k', v') :: strDictSet t k v

/-- Outcomes of all collaborator calls made during one run. -/
structure Env where
  planResult : Except String PlanObj
  proposeResult : Except String Patch
  reflectResult : String → Except String ReflectionObj
  reflectPatchFailure : Option String → String → Except String ReflectionObj
  readFile : String → Except String String
  execCmd : String → Except String CmdResult
  applyFn : String → CmdResult

/-- `LoopExecutor._execute_plan_step`. -/
def execPlanStep (env : Env) (st : LoopState) : StepResult × LoopState :=
  match env.planResult with
  | .ok plan =>
      let output := "Plan generated: " ++ plan.rationale ++ "\n" ++
        "Files to read: " ++ String.intercalate ", " plan.files_to_read ++ "\n" ++
        "Commands to run: " ++ String.intercalate ", " plan.commands_to_run
      (⟨.plan, .completed, some output, none⟩, { st with current_plan := some plan })
  | .error e => (⟨.plan, .failed, none, some e⟩, st)

/-- Body of the `for filepath in plan.files_to_read` loop of
`_execute_fetch_files_step`: store a successful read in the context and
record the path as fetched, or record the per-file failure. -/
def fetchFileStep (env : Env) (acc : ModelContext × List String × List String)
    (fp : String) : ModelContext × List String × List String :=
  let (c, fs, ff) := acc
  match env.readFile fp with
  | .ok content =>
      ({ c with file_contents := strDictSet c.file_contents fp content }, fs ++ [fp], ff)
  | .error e => (c, fs, ff ++ [fp ++ ": " ++ e])

/-- Body of the `for cmd in plan.commands_to_run` loop of
`_execute_fetch_files_step`: record the command outcome either way. -/
def fetchCmdStep (env : Env) (c : ModelContext) (cmd : String) : ModelContext :=
  match env.execCmd cmd with
  | .ok r =>
      { c with command_results := c.command_results ++ [⟨cmd, r.returncode, r.stdout, r.stderr⟩] }
  | .error e =>
      { c with command_results := c.command_results ++ [⟨cmd, -1, "", e⟩] }

/-- `LoopExecutor._execute_fetch_files_step`. -/
def execFetchFilesStep (env : Env) (st : LoopState) (ctx : ModelContext) :
    StepResult × ModelContext :=
  match st.current_plan with
  | none => (⟨.fetch_files, .failed, none, some "No plan available"⟩, ctx)
  | some plan =>
      let (ctx1, fetched, failedFiles) :=
        plan.files_to_read.foldl (fetchFileStep env) (ctx, [], [])
      let ctx2 := plan.commands_to_run.foldl (fetchCmdStep env) ctx1
      let output := "Fetched " ++ toString fetched.length ++ " files successfully" ++
        (if failedFiles ≠ [] then
          "\nFailed to fetch: " ++ String.intercalate ", " failedFiles
        else "")
      let status : StepStatus := if fetched ≠ [] then .completed else .failed
      (⟨.fetch_files, status, some output, none⟩, ctx2)

/-- `LoopExecutor._execute_propose_patch_step`. -/
def execProposePatchStep (env : Env) (st : LoopState) : StepResult × LoopState :=
  match st.current_plan with
  | none => (⟨.propose_patch, .failed, none, some "No plan available"⟩, st)
  | some _ =>
      match env.proposeResult with
      | .ok patch =>
          let n := patch.unified_diff.toList.length
          let output := "Patch generated (" ++ toString n ++ " chars)" ++
            (if n > 200 then "\nPreview: " ++ pyTake patch.unified_diff 200 ++ "..."
             else "\nPatch: " ++ patch.unified_diff)
          (⟨.propose_patch, .completed, some output, none⟩,
           { st with current_patch := some patch })
      | .error e => (⟨.propose_patch, .failed, none, some e⟩, st)

/-- `LoopExecutor._execute_apply_step`. -/
def execApplyStep (applyFn : String → CmdResult) (st : LoopState) : StepResult :=
  match st.current_patch with
  | none => ⟨.apply, .failed, none, some "No patch available"⟩
  | some patch =>
      if st.dry_run then
        ⟨.apply, .completed, some "[DRY RUN] Patch would be applied here", none⟩
      else
        let result := applyFn patch.unified_diff
        if result.returncode = 0 then
          ⟨.apply, .completed, some "Patch applied successfully", none⟩
        else
          let first20 := joinNl ((pySplit patch.unified_diff nlChar).take 20)
          let stderrTail := pyTakeRight result.stderr 2000
          let errorDetails := pyRepr (.dict
            [("git_stderr", .str stderrTail),
             ("git_exit_code", .num (toString result.returncode)),
             ("patch_first_20_lines", .str first20),
             ("patch_total_length", .num (toString patch.unified_diff.toList.length)),
             ("stdout", .str result.stdout)])
          let detailedError := "PATCH APPLICATION FAILED\n" ++
            "Git exit code: " ++ toString result.returncode ++ "\n" ++
            "Git stderr (last 2000 chars): " ++ stderrTail ++ "\n" ++
            "Patch preview (first 20 lines):\n" ++ first20 ++ "\n" ++
            (if pyTruthy result.stdout then "Git stdout: " ++ result.stdout ++ "\n" else "")
          ⟨.apply, .failed, some ("Error details: " ++ errorDetails), some detailedError⟩

/-- `LoopExecutor._execute_run_tests_step`. -/
def execRunTestsStep (env : Env) (st : LoopState) (ctx : ModelContext) :
    StepResult × LoopState :=
  match ctx.test_command with
  | none => (⟨.run_tests, .skipped, some "No test command available", none⟩, st)
  | some tc =>
      if tc = "" then (⟨.run_tests, .skipped, some "No test command available", none⟩, st)
      else
        match env.execCmd tc with
        | .ok result =>
            let st' := { st with test_output := some (result.stdout ++ result.stderr) }
            if result.returncode = 0 then
              (⟨.run_tests, .completed, some "All tests passed", none⟩, st')
            else
              (⟨.run_tests, .failed,
                some ("Tests failed (rc=" ++ toString result.returncode ++ ")"), none⟩, st')
        | .error e => (⟨.run_tests, .failed, none, some e⟩, st)

/-- The backward scan of `_execute_reflect_step`: the most recent StepResult
that is an APPLY *and* FAILED (a later completed APPLY does not stop the
scan). -/
def findApplyFailure (results : List StepResult) : Option StepResult :=
  results.reverse.find? (fun r => r.step_type = .apply && r.status = .failed)

/-- Python `repr` of a list of strings. -/
def strListRepr (l : List String) : String :=
  pyRepr (.list (l.map JVal.str))

/-- Tail of `_execute_reflect_step` shared by both reflection branches:
format the output and apply the termination policy. -/
def finishReflect (reflection : ReflectionObj) (st : LoopState) :
    StepResult × LoopState :=
  let output := "Reflection: " ++ reflection.next_action ++ "\n" ++
    "Lessons learned: " ++ reflection.lessons_learned ++ "\n" ++
    "Should retry: " ++ (if reflection.should_retry then "True" else "False") ++
    (match reflection.recovery_strategy with
     | some rs => "\nRecovery strategy: " ++ recoveryStrategyValue rs
     | none => "")
  let st' :=
    if !reflection.should_retry then
      let stopped := { st with should_stop := true }
      match stopped.getLastStepResult with
      | some last =>
          if last.step_type = .run_tests && last.status = .completed then
            stopped.markCompleted
          else stopped
      | none => stopped
    else st
  (⟨.reflect, .completed, some output, none⟩, st')

/-- Which collaborator call the REFLECT handler made. -/
inductive ReflectCall where
  | patchFailure
  | standard (tail : String)
  | noCall
deriving Repr, DecidableEq

/-- `LoopExecutor._execute_reflect_step`, instrumented with the collaborator
call made. -/
def execReflectStepTr (env : Env) (st : LoopState) (ctx : ModelContext) :
    StepResult × LoopState × ReflectCall :=
  match findApplyFailure st.step_results with
  | some af =>
      let errorDetails : Option String :=
        match af.output with
        | some o => if o ≠ "" then some o else af.error
        | none => af.error
      let patchPreview :=
        match st.current_patch with
        | some p => pyTake p.unified_diff 200
        | none => "None"
      let contextStr := "Files: " ++ strListRepr (ctx.file_contents.map Prod.fst) ++ "\n" ++
        "Commands: " ++ toString ctx.command_results.length ++ " executed\n" ++
        "Last patch preview: " ++ patchPreview ++ "..."
      match env.reflectPatchFailure errorDetails contextStr with
      | .ok reflection =>
          let (r, st') := finishReflect reflection st
          (r, st', .patchFailure)
      | .error e => (⟨.reflect, .failed, none, some e⟩, st, .patchFailure)
  | none =>
      let tail := st.getTestOutputTail 200
      if !(pyTruthy tail) then
        (⟨.reflect, .completed, some "No test output to reflect on", none⟩, st, .noCall)
      else
        match env.reflectResult tail with
        | .ok reflection =>
            let (r, st') := finishReflect reflection st
            (r, st', .standard tail)
        | .error e => (⟨.reflect, .failed, none, some e⟩, st, .standard tail)

/-- `_execute_reflect_step` without the instrumentation. -/
def execReflectStep (env : Env) (st : LoopState) (ctx : ModelContext) :
    StepResult × LoopState :=
  let r := execReflectStepTr env st ctx
  (r.1, r.2.1)

/-- `LoopExecutor._execute_step`: run the handler and append its result.
The `except` branch of the source (synthesise a FAILED result and call
`mark_failed` for the critical steps PLAN / PROPOSE_PATCH) is unreachable:
every handler wraps its whole body in `try`/`except` and returns a FAILED
StepResult instead of raising, so no exception ever escapes a handler. -/
def execStep (env : Env) (st : LoopState) (ctx : ModelContext) (t : StepType) :
    LoopState × ModelContext :=
  match t with
  | .plan =>
      let (r, st') := execPlanStep env st
      (st'.addStepResult r, ctx)
  | .fetch_files =>
      let (r, ctx') := execFetchFilesStep env st ctx
      (st.addStepResult r, ctx')
  | .propose_patch =>
      let (r, st') := execProposePatchStep env st
      (st'.addStepResult r, ctx)
  | .apply =>
      let r := execApplyStep env.applyFn st
      (st.addStepResult r, ctx)
  | .run_tests =>
      let (r, st') := execRunTestsStep env st ctx
      (st'.addStepResult r, ctx)
  | .reflect =>
      let (r, st') := execReflectStep env st ctx
      (st'.addStepResult r, ctx)

/-- The fixed step order of one iteration. -/
def iterationSteps : List StepType :=
  [.plan, .fetch_files, .propose_patch, .apply, .run_tests, .reflect]

/-- `LoopExecutor._execute_single_iteration`, instrumented with the list of
steps that actually executed: `can_continue` is consulted after each of the
first five steps, and `increment_step` runs only when all six executed. -/
def execSingleIterationTr (env : Env) (st : LoopState) (ctx : ModelContext) :
    LoopState × ModelContext × List StepType :=
  let (s1, c1) := execStep env st ctx .plan
  if !s1.canContinue then (s1, c1, [.plan]) else
  let (s2, c2) := execStep env s1 c1 .fetch_files
  if !s2.canContinue then (s2, c2, [.plan, .fetch_files]) else
  let (s3, c3) := execStep env s2 c2 .propose_patch
  if !s3.canContinue then (s3, c3, [.plan, .fetch_files, .propose_patch]) else
  let (s4, c4) := execStep env s3 c3 .apply
  if !s4.canContinue then (s4, c4, [.plan, .fetch_files, .propose_patch, .apply]) else
  let (s5, c5) := execStep env s4 c4 .run_tests
  if !s5.canContinue then
    (s5, c5, [.plan, .fetch_files, .propose_patch, .apply, .run_tests])
  else
  let (s6, c6) := execStep env s5 c5 .reflect
  (s6.incrementStep, c6, iterationSteps)

/-- `_execute_single_iteration` without the instrumentation. -/
def execSingleIteration (env : Env) (st : LoopState) (ctx : ModelContext) :
    LoopState × ModelContext :=
  let r := execSingleIterationTr env st ctx
  (r.1, r.2.1)

/-- The `while self.loop_state.can_continue()` loop of `execute_loop`,
with explicit fuel. Each iteration either sets a termination flag (ending
the loop) or increments `current_step`, so `max_steps - current_step + 1`
iterations always suffice. -/
def executeLoopFuel (env : Env) : Nat → LoopState → ModelContext → LoopState × ModelContext
  | 0, st, ctx => (st, ctx)
  | n + 1, st, ctx =>
      if st.canContinue then
        let (st', ctx') := execSingleIteration env st ctx
        executeLoopFuel env n st' ctx'
      else (st, ctx)

/-- `LoopExecutor.execute_loop` (console rendering not modelled; nothing in
an iteration raises, so the top-level `try`/`except` is never taken). -/
def executeLoop (env : Env) (st : LoopState) (ctx : ModelContext) :
    LoopState × ModelContext :=
  executeLoopFuel env (st.max_steps + 1 - st.current_step) st ctx

/-- Reference gated runner for the order/gating property: runs steps in
sequence, recording for each executed step the state in which it began, and
stops as soon as `can_continue` fails after a step. -/
def gatedRun (env : Env) :
    LoopState → ModelContext → List StepType →
      LoopState × ModelContext × List (StepType × LoopState)
  | st, _ctx, [] => (st, _ctx, [])
  | st, ctx, t :: ts =>
      let (st', ctx') := execStep env st ctx t
      if st'.canContinue then
        let (st'', ctx'', tr) := gatedRun env st' ctx' ts
        (st'', ctx'', (t, st) :: tr)
      else (st', ctx', [(t, st)])

/-! ## Claim-side reference definitions -/

/-- The termination-policy condition as stated by the specification: the
immediately preceding recorded StepResult is a RUN_TESTS with status
COMPLETED. -/
def lastIsCompletedRunTests (st : LoopState) : Bool :=
  match st.getLastStepResult with
  | some last => last.step_type = .run_tests && last.status = .completed
  | none => false

/-- The branch criterion as the claim states it: the most recent APPLY
StepResult in the history (scanning backward) has status FAILED. -/
def mostRecentApplyFailed (results : List StepResult) : Bool :=
  match results.reverse.find? (fun r => r.step_type = .apply) with
  | some r => r.status = .failed
  | none => false

/-- The strategy order asserted by the claim: preflight check, default
apply with whitespace correction, strip levels 0, 1, 2, and (when the diff
carries git-style index metadata) the three-way merge. -/
def claimStrategyOrder (threeWay : Bool) : List (List String) :=
  [["git", "apply", "--check"],
   ["git", "apply", "--whitespace=fix", "--ignore-whitespace"],
   ["git", "apply", "-p0", "--whitespace=fix", "--ignore-whitespace"],
   ["git", "apply", "-p1", "--whitespace=fix", "--ignore-whitespace"],
   ["git", "apply", "-p2", "--whitespace=fix", "--ignore-whitespace"]] ++
  (if threeWay then [["git", "apply", "-3"]] else [])

/-- The strip levels of the patch-utility fallback. -/
def patchFallbackLevels : List String := ["-p0", "-p1", "-p2"]

/-- The prefix of the candidates actually tried under a
first-success-stops discipline: everything up to and including the first
success (or everything, when none succeeds). -/
def takeUntilSuccess {α : Type} (p : α → Bool) : List α → List α
  | [] => []
  | x :: t => if p x then [x] else x :: takeUntilSuccess p t

/-- The first candidate that succeeds, scanning left to right. -/
def firstSuccess {α : Type} (p : α → Bool) : List α → Option α
  | [] => none
  | x :: t => if p x then some x else firstSuccess p t

/-! ## Concrete collaborator environments and states used by the final
theorems -/

/-- A run whose PLAN call raises; every other collaborator outcome benign. -/
def c1Env : Env where
  planResult := .error "API connection failed"
  proposeResult := .error "unused"
  reflectResult := fun _ => .ok ⟨"n", "l", true, none⟩
  reflectPatchFailure := fun _ _ => .ok ⟨"n", "l", true, none⟩
  readFile := fun _ => .error "unused"
  execCmd := fun _ => .error "unused"
  applyFn := fun _ => ⟨1, "", ""⟩

/-- `LoopState(max_steps=1)`. -/
def c1State : LoopState := { max_steps := 1 }

/-- Reflection collaborator declining a retry. -/
def c4Env : Env where
  planResult := .error "unused"
  proposeResult := .error "unused"
  reflectResult := fun _ => .ok ⟨"stop", "looks done", false, none⟩
  reflectPatchFailure := fun _ _ => .ok ⟨"stop", "looks done", false, none⟩
  readFile := fun _ => .error "unused"
  execCmd := fun _ => .error "unused"
  applyFn := fun _ => ⟨1, "", ""⟩

/-- History ending in a COMPLETED RUN_TESTS, with test output recorded. -/
def c4State : LoopState :=
  { step_results := [⟨.run_tests, .completed, some "All tests passed", none⟩],
    test_output := some "3 passed" }

/-- Environment with both reflection collaborators available. -/
def c5Env : Env where
  planResult := .error "unused"
  proposeResult := .error "unused"
  reflectResult := fun _ => .ok ⟨"standard", "s", true, none⟩
  reflectPatchFailure := fun _ _ => .ok ⟨"patch-failure", "p", true, none⟩
  readFile := fun _ => .error "unused"
  execCmd := fun _ => .error "unused"
  applyFn := fun _ => ⟨1, "", ""⟩

/-- A history in which an early APPLY failed and a later APPLY completed,
with test output available for standard reflection. -/
def c5State : LoopState :=
  { step_results :=
      [⟨.apply, .failed, some "Error details: boom", none⟩,
       ⟨.run_tests, .failed, some "Tests failed (rc=1)", none⟩,
       ⟨.reflect, .completed, some "Reflection: retry", none⟩,
       ⟨.apply, .completed, some "Patch applied successfully", none⟩,
       ⟨.run_tests, .failed, some "Tests failed (rc=1)", none⟩],
    test_output := some "1 failed" }

/-- One readable file, one unreadable file, one failing command. -/
def c8Env : Env where
  planResult := .error "unused"
  proposeResult := .error "unused"
  reflectResult := fun _ => .ok ⟨"n", "l", true, none⟩
  reflectPatchFailure := fun _ _ => .ok ⟨"n", "l", true, none⟩
  readFile := fun f => if f = "a.py" then .ok "print(1)" else .error "No such file"
  execCmd := fun _ => .error "Command timed out"
  applyFn := fun _ => ⟨1, "", ""⟩

/-- A plan listing two files and one command. -/
def c8State : LoopState :=
  { current_plan := some ⟨["a.py", "b.py"], ["pytest"], "read the sources"⟩ }

/-- A well-formed unified diff used to exercise `apply_patch`. -/
def c6Diff : String :=
  "--- a/f.py\n+++ b/f.py\n@@ -1,1 +1,1 @@\n-old\n+new"

/-- Apply tool succeeding only at strip level 1. -/
def c6Env : ApplyEnv where
  runGitApply := fun args _ =>
    if args = ["git", "apply", "-p1", "--whitespace=fix", "--ignore-whitespace"] then
      ⟨0, "", ""⟩
    else ⟨1, "", "patch does not apply"⟩
  runPatchUtil := fun _ _ => ⟨1, "", "patch utility failed"⟩

/-- Apply tool whose preflight check succeeds. -/
def c10Env : ApplyEnv where
  runGitApply := fun args _ =>
    if args = ["git", "apply", "--check"] then ⟨0, "", ""⟩
    else ⟨1, "", "would mutate the tree"⟩
  runPatchUtil := fun _ _ => ⟨1, "", "patch utility failed"⟩

/-- APPLY-step state holding the diff of `c6Diff`. -/
def c10State : LoopState := { current_patch := some ⟨c6Diff⟩ }

/-- A fully benign environment for one complete iteration. -/
def c7Env : Env where
  planResult := .ok ⟨["a.py"], ["ls"], "look around"⟩
  proposeResult := .ok ⟨c6Diff⟩
  reflectResult := fun _ => .ok ⟨"continue", "fine", true, none⟩
  reflectPatchFailure := fun _ _ => .ok ⟨"continue", "fine", true, none⟩
  readFile := fun _ => .ok "print(1)"
  execCmd := fun _ => .ok ⟨0, "ok", ""⟩
  applyFn := fun _ => ⟨0, "", ""⟩

/-- Fresh state with room for several iterations. -/
def c7State : LoopState := { max_steps := 12 }

/-! ## Support lemmas -/

theorem dictGet_dictSet_ne (d : JDict) (k k' : String) (v : JVal) (h : k' ≠ k) :
    dictGet (dictSet d k v) k' = dictGet d k' := by
  induction d with
  | nil =>
      simp only [dictSet, dictGet]
      rw [if_neg (fun hh => h hh.symm)]
  | cons p t ih =>
      obtain ⟨a, b⟩ := p
      simp only [dictSet]
      by_cases ha : a = k
      · subst ha
        simp only [if_pos rfl, dictGet]
        rw [if_neg (fun hh => h hh.symm), if_neg (fun hh => h hh.symm)]
      · simp only [if_neg ha, dictGet]
        by_cases ha' : a = k'
        · simp [ha']
        · simp [ha', ih]

/-- The guarded pass 5 never changes a key that is already present. -/
theorem kvPass5_preserves (text : String) (d : JDict) (k : String) (v : JVal)
    (h : dictGet d k = some v) : dictGet (kvPass5 text d) k = some v := by
  unfold kvPass5
  generalize scanAll matchBareKV text = entries
  induction entries generalizing d with
  | nil => simpa using h
  | cons e t ih =>
      simp only [List.foldl_cons]
      by_cases he : dictHas d e.1
      · simp only [he, if_pos rfl]
        exact ih d h
      · have hne : e.1 ≠ k := by
          intro hh
          subst hh
          simp [dictHas, h] at he
        simp only [he]
        rw [if_neg (by simp)]
        exact ih _ (by rw [dictGet_dictSet_ne _ _ _ _ (fun hh => hne hh.symm)]; exact h)

/-- Every `ModelObj` satisfies its schema's required fields and types. -/
theorem modelSchemaOk_total (m : ModelObj) : modelSchemaOk m = true := by
  cases m <;> rfl

/-! ## C9 -/

/-- C9, counterexample: in `"k": "v", k: [x]` the quoted-string pass (pass 1)
captures `k ↦ "v"`, yet the later bare-array pass overwrites it with
`["x"]`, so an earlier, more specific capture is not preserved. -/
theorem c9_array_pass_overwrites_quoted_capture :
    dictGet (kvPass1 "\"k\": \"v\", k: [x]" []) "k" = some (.str "v") ∧
    dictGet (extractKeyValuePairs "\"k\": \"v\", k: [x]") "k" = some (.list [.str "x"]) :=
  ⟨rfl, rfl⟩

/-- C9 (amended): only the final bare `key: value` pass is guarded against
overwriting; a key present after the four earlier passes keeps its value
through pass 5 (while the earlier quoted-string / boolean / array passes
overwrite unconditionally). -/
theorem c9_amended_bare_pass_no_overwrite (text : String) (k : String) (v : JVal)
    (h : dictGet (kvPass4 text (kvPass3 text (kvPass2 text (kvPass1 text [])))) k = some v) :
    dictGet (extractKeyValuePairs text) k = some v := by
  unfold extractKeyValuePairs
  exact kvPass5_preserves text _ k v h

/-- Witness for C9 (amended) at the input `"k": "v"`. -/
theorem c9_amended_bare_pass_no_overwrite_witness :
    dictGet (extractKeyValuePairs "\"k\": \"v\"") "k" = some (.str "v") :=
  c9_amended_bare_pass_no_overwrite "\"k\": \"v\"" "k" (.str "v") rfl

/-! ## C2 -/

/-- C2, counterexample: the prose input
`files_to_read: [], commands_to_run: [ls], rationale: x` scrapes to a
schema-valid mapping whose `files_to_read` is the empty list; `Plan`'s
non-empty validator then raises `ValidationError` (type `value_error`),
which `_repair_model_data` does not handle, so the second instantiation
raises out of `validate_and_repair_json`. -/
theorem c2_raises_on_empty_required_list :
    exceptIsOk
      (validateAndRepairJson "files_to_read: [], commands_to_run: [ls], rationale: x" .plan)
      = false :=
  rfl

/-- C2 (amended): whenever `validate_and_repair_json` returns, the returned
object satisfies all required fields of its schema; and it does return
normally — for both the plan and the reflection schema — on every input from
which nothing is extracted (in particular the empty string and pure prose).
It is not total: see the counterexample. -/
theorem c2_amended_validator_partial_totality (s : String) :
    (∀ m, validateAndRepairJson s .plan = .ok m → modelSchemaOk m = true) ∧
    (∀ m, validateAndRepairJson s .reflection = .ok m → modelSchemaOk m = true) ∧
    (extractJson s = [] →
      exceptIsOk (validateAndRepairJson s .plan) = true ∧
      exceptIsOk (validateAndRepairJson s .reflection) = true) := by
  refine ⟨fun m _ => modelSchemaOk_total m, fun m _ => modelSchemaOk_total m, fun h => ?_⟩
  unfold validateAndRepairJson
  rw [h]
  exact ⟨rfl, rfl⟩

/-- Witness for C2 (amended) at the empty string. -/
theorem c2_amended_validator_partial_totality_witness :
    exceptIsOk (validateAndRepairJson "" .plan) = true ∧
    exceptIsOk (validateAndRepairJson "" .reflection) = true :=
  (c2_amended_validator_partial_totality "").2.2 rfl

/-! ## C1 -/

/-- C1: the code does not implement the claimed behaviour. With
`max_steps = 1` and a PLAN collaborator call that raises, the handler
`_execute_plan_step` catches the exception and returns a FAILED StepResult,
so the `except` branch of `_execute_step` — the only caller of
`mark_failed` for critical steps — never runs. The run then executes all
six steps of the iteration and terminates with `is_failed = False` and six
recorded StepResults (not two): the FAILED PLAN record is first, and no
synthetic REFLECT failure is appended. -/
theorem c1_critical_plan_failure_not_marked_failed :
    (executeLoop c1Env c1State {}).1.is_failed = false ∧
    (executeLoop c1Env c1State {}).1.step_results.length = 6 ∧
    (executeLoop c1Env c1State {}).1.step_results.headD ⟨.reflect, .pending, none, none⟩
      = ⟨.plan, .failed, none, some "API connection failed"⟩ :=
  ⟨rfl, rfl, rfl⟩

/-! ## C4 -/

/-- Termination policy of the REFLECT handler, isolated. -/
theorem finishReflect_no_retry (r : ReflectionObj) (st : LoopState)
    (hic : st.is_completed = false) (hr : r.should_retry = false) :
    (finishReflect r st).2.should_stop = true ∧
    (finishReflect r st).2.is_completed = lastIsCompletedRunTests st := by
  unfold finishReflect lastIsCompletedRunTests LoopState.getLastStepResult
  rw [hr]
  simp only [Bool.not_false, if_true]
  cases hl : st.step_results.getLast? with
  | none => simp [hic]
  | some last =>
      by_cases hc : (last.step_type = StepType.run_tests && last.status = StepStatus.completed) = true
      · simp [hc, LoopState.markCompleted]
      · simp only [Bool.not_eq_true] at hc
        simp [hc, hic]

/-- C4: when the REFLECT step obtains a reflection with
`should_retry = False` (from either reflection branch), it sets
`should_stop`, and it marks the loop COMPLETED exactly when the immediately
preceding recorded StepResult is a RUN_TESTS with status COMPLETED; after a
FAILED, SKIPPED, or absent RUN_TESTS the loop is stopped but not completed. -/
theorem c4_reflect_termination_policy (env : Env) (st : LoopState) (ctx : ModelContext)
    (r : ReflectionObj) (hic : st.is_completed = false) (hr : r.should_retry = false)
    (hbranch :
      ((findApplyFailure st.step_results).isSome = true ∧
        ∀ ed cs, env.reflectPatchFailure ed cs = .ok r) ∨
      (findApplyFailure st.step_results = none ∧
        pyTruthy (st.getTestOutputTail 200) = true ∧
        env.reflectResult (st.getTestOutputTail 200) = .ok r)) :
    (execReflectStep env st ctx).2.should_stop = true ∧
    (execReflectStep env st ctx).2.is_completed = lastIsCompletedRunTests st := by
  unfold execReflectStep execReflectStepTr
  rcases hbranch with ⟨hsome, hfn⟩ | ⟨hnone, htail, hres⟩
  · obtain ⟨af, haf⟩ := Option.isSome_iff_exists.mp hsome
    simp only [haf, hfn]
    exact finishReflect_no_retry r st hic hr
  · simp only [hnone, htail, Bool.not_true, Bool.false_eq_true, if_false, hres]
    exact finishReflect_no_retry r st hic hr

/-- Witness for C4 after a COMPLETED RUN_TESTS. -/
theorem c4_reflect_termination_policy_witness :
    (execReflectStep c4Env c4State {}).2.should_stop = true ∧
    (execReflectStep c4Env c4State {}).2.is_completed = lastIsCompletedRunTests c4State :=
  c4_reflect_termination_policy c4Env c4State {} ⟨"stop", "looks done", false, none⟩
    rfl rfl (Or.inr ⟨rfl, rfl, rfl⟩)

/-! ## C5 -/

/-- C5, counterexample: in a history where an early APPLY failed and the
most recent APPLY completed, the claim's criterion (`most recent APPLY is
FAILED`) is false, and test output is available — yet the handler still
invokes the patch-failure-specific reflection, because its backward scan
looks for the most recent *failed* APPLY anywhere in the history. -/
theorem c5_stale_apply_failure_selected :
    mostRecentApplyFailed c5State.step_results = false ∧
    pyTruthy (c5State.getTestOutputTail 200) = true ∧
    (execReflectStepTr c5Env c5State {}).2.2 = .patchFailure :=
  ⟨rfl, rfl, rfl⟩

/-- C5 (amended): the REFLECT step invokes the patch-failure-specific
reflection iff *some* APPLY StepResult in the history has status FAILED
(the backward scan returns the most recent failed APPLY, even when a later
APPLY completed); otherwise it invokes standard reflection on the tail of
the last test output, and returns COMPLETED immediately with no
collaborator call when there is no test output. -/
theorem c5_amended_reflect_branching (env : Env) (st : LoopState) (ctx : ModelContext) :
    ((findApplyFailure st.step_results).isSome = true →
      (execReflectStepTr env st ctx).2.2 = .patchFailure) ∧
    (findApplyFailure st.step_results = none →
      pyTruthy (st.getTestOutputTail 200) = true →
      (execReflectStepTr env st ctx).2.2 = .standard (st.getTestOutputTail 200)) ∧
    (findApplyFailure st.step_results = none →
      pyTruthy (st.getTestOutputTail 200) = false →
      (execReflectStepTr env st ctx).2.2 = .noCall ∧
      (execReflectStepTr env st ctx).1 =
        ⟨.reflect, .completed, some "No test output to reflect on", none⟩) := by
  refine ⟨fun hsome => ?_, fun hnone htail => ?_, fun hnone htail => ?_⟩
  · obtain ⟨af, haf⟩ := Option.isSome_iff_exists.mp hsome
    unfold execReflectStepTr
    simp only [haf]
    cases env.reflectPatchFailure
        (match af.output with
          | some o => if o ≠ "" then some o else af.error
          | none => af.error)
        ("Files: " ++ strListRepr (ctx.file_contents.map Prod.fst) ++ "\n" ++
          "Commands: " ++ toString ctx.command_results.length ++ " executed\n" ++
          "Last patch preview: " ++
            (match st.current_patch with
              | some p => pyTake p.unified_diff 200
              | none => "None") ++ "...") <;> rfl
  · unfold execReflectStepTr
    simp only [hnone, htail, Bool.not_true, Bool.false_eq_true, if_false]
    cases env.reflectResult (st.getTestOutputTail 200) <;> rfl
  · unfold execReflectStepTr
    simp only [hnone, htail, Bool.not_false, if_true]
    exact ⟨by trivial, by trivial⟩

/-- Witness for C5 (amended), covering all three branches. -/
theorem c5_amended_reflect_branching_witness :
    (execReflectStepTr c5Env c5State {}).2.2 = .patchFailure ∧
    (execReflectStepTr c5Env { test_output := some "1 failed" } {}).2.2 =
      .standard "1 failed" ∧
    (execReflectStepTr c5Env {} {}).2.2 = .noCall :=
  ⟨(c5_amended_reflect_branching c5Env c5State {}).1 rfl,
   (c5_amended_reflect_branching c5Env { test_output := some "1 failed" } {}).2.1 rfl rfl,
   ((c5_amended_reflect_branching c5Env {} {}).2.2 rfl rfl).1⟩

/-! ## C8 -/

theorem strDictGet_set_same (d : List (String × String)) (k v : String) :
    strDictGet (strDictSet d k v) k = some v := by
  induction d with
  | nil => simp [strDictSet, strDictGet]
  | cons p t ih =>
      obtain ⟨a, b⟩ := p
      by_cases ha : a = k
      · simp [strDictSet, ha, strDictGet]
      · simp [strDictSet, ha, strDictGet, ih]

theorem strDictGet_set_ne (d : List (String × String)) (k k' v : String) (h : k' ≠ k) :
    strDictGet (strDictSet d k v) k' = strDictGet d k' := by
  induction d with
  | nil =>
      simp only [strDictSet, strDictGet]
      rw [if_neg (fun hh => h hh.symm)]
  | cons p t ih =>
      obtain ⟨a, b⟩ := p
      by_cases ha : a = k
      · subst ha
        simp only [strDictSet, if_pos rfl, strDictGet]
        rw [if_neg (fun hh => h hh.symm), if_neg (fun hh => h hh.symm)]
      · simp only [strDictSet, if_neg ha, strDictGet]
        by_cases ha' : a = k'
        · simp [ha']
        · simp [ha', ih]

/-- Every successfully readable listed file ends up stored, regardless of
the other files' outcomes. -/
theorem fetchFold_mem (env : Env) (files : List String)
    (acc : ModelContext × List String × List String) (f c : String)
    (hread : env.readFile f = .ok c)
    (hin : strDictGet acc.1.file_contents f = some c ∨ f ∈ files) :
    strDictGet ((files.foldl (fetchFileStep env) acc).1.file_contents) f = some c := by
  induction files generalizing acc with
  | nil =>
      rcases hin with h | h
      · simpa using h
      · cases h
  | cons g gs ih =>
      simp only [List.foldl_cons]
      apply ih
      unfold fetchFileStep
      obtain ⟨cc, fs, ff⟩ := acc
      cases hg : env.readFile g with
      | ok content =>
          simp only
          by_cases hfg : f = g
          · subst hfg
            rw [hread] at hg
            injection hg with hc
            subst hc
            exact Or.inl (strDictGet_set_same _ _ _)
          · rcases hin with h | h
            · exact Or.inl (by rw [strDictGet_set_ne _ _ _ _ hfg]; exact h)
            · rcases List.mem_cons.mp h with h1 | h2
              · exact absurd h1 hfg
              · exact Or.inr h2
      | error e =>
          simp only
          rcases hin with h | h
          · exact Or.inl h
          · rcases List.mem_cons.mp h with h1 | h2
            · subst h1
              rw [hread] at hg
              cases hg
            · exact Or.inr h2

/-- The fetched-files accumulator collects exactly the successfully read
listed files, in order. -/
theorem fetchFold_fetched (env : Env) (files : List String)
    (acc : ModelContext × List String × List String) :
    (files.foldl (fetchFileStep env) acc).2.1 =
      acc.2.1 ++ files.filter (fun f => exceptIsOk (env.readFile f)) := by
  induction files generalizing acc with
  | nil => simp
  | cons g gs ih =>
      simp only [List.foldl_cons, List.filter_cons]
      obtain ⟨cc, fs, ff⟩ := acc
      cases hg : env.readFile g with
      | ok content => simp [fetchFileStep, hg, ih, exceptIsOk]
      | error e => simp [fetchFileStep, hg, ih, exceptIsOk]

/-- The file loop never touches the recorded command outcomes. -/
theorem fetchFold_cmds (env : Env) (files : List String)
    (acc : ModelContext × List String × List String) :
    (files.foldl (fetchFileStep env) acc).1.command_results = acc.1.command_results := by
  induction files generalizing acc with
  | nil => simp
  | cons g gs ih =>
      simp only [List.foldl_cons]
      rw [ih]
      obtain ⟨cc, fs, ff⟩ := acc
      unfold fetchFileStep
      cases env.readFile g <;> simp

/-- The command loop records exactly one outcome per listed command. -/
theorem fetchCmds_length (env : Env) (cmds : List String) (ctx : ModelContext) :
    ((cmds.foldl (fetchCmdStep env) ctx).command_results).length =
      ctx.command_results.length + cmds.length := by
  induction cmds generalizing ctx with
  | nil => simp
  | cons cmd cs ih =>
      simp only [List.foldl_cons, List.length_cons, ih]
      unfold fetchCmdStep
      cases env.execCmd cmd <;> simp <;> omega

/-- The command loop leaves the fetched file contents untouched. -/
theorem fetchCmds_files (env : Env) (cmds : List String) (ctx : ModelContext) :
    (cmds.foldl (fetchCmdStep env) ctx).file_contents = ctx.file_contents := by
  induction cmds generalizing ctx with
  | nil => simp
  | cons cmd cs ih =>
      simp only [List.foldl_cons, ih]
      unfold fetchCmdStep
      cases env.execCmd cmd <;> simp

/-- C8: FETCH_FILES fails with "No plan available" when no Plan exists;
otherwise every listed file read is attempted independently (each readable
file is stored no matter what happens to the others), every listed command
contributes exactly one recorded outcome whether it succeeds or not, and
the step is COMPLETED iff at least one listed file was read successfully. -/
theorem c8_fetch_files_contract (env : Env) (st : LoopState) (ctx : ModelContext) :
    (st.current_plan = none →
      execFetchFilesStep env st ctx =
        (⟨.fetch_files, .failed, none, some "No plan available"⟩, ctx)) ∧
    (∀ plan, st.current_plan = some plan →
      ((execFetchFilesStep env st ctx).1.status = .completed ↔
        ∃ f ∈ plan.files_to_read, exceptIsOk (env.readFile f) = true) ∧
      (∀ f c, f ∈ plan.files_to_read → env.readFile f = .ok c →
        strDictGet (execFetchFilesStep env st ctx).2.file_contents f = some c) ∧
      (execFetchFilesStep env st ctx).2.command_results.length =
        ctx.command_results.length + plan.commands_to_run.length) := by
  constructor
  · intro h
    unfold execFetchFilesStep
    rw [h]
  · intro plan h
    unfold execFetchFilesStep
    rw [h]
    rcases hfold : plan.files_to_read.foldl (fetchFileStep env) (ctx, [], [])
      with ⟨ctx1, fetched, failedFiles⟩
    simp only [hfold]
    have hfe : fetched = plan.files_to_read.filter (fun f => exceptIsOk (env.readFile f)) := by
      have hh := fetchFold_fetched env plan.files_to_read (ctx, [], [])
      rw [hfold] at hh
      simpa using hh
    refine ⟨?_, ?_, ?_⟩
    · constructor
      · intro hs
        by_contra hnone
        push_neg at hnone
        have hnil : plan.files_to_read.filter (fun f => exceptIsOk (env.readFile f)) = [] :=
          List.filter_eq_nil_iff.mpr (by
            intro a ha
            simp [hnone a ha])
        rw [hfe, hnil] at hs
        simp at hs
      · rintro ⟨f, hf, hok⟩
        have hne : fetched ≠ [] := by
          rw [hfe]
          intro hnil
          have := List.filter_eq_nil_iff.mp hnil f hf
          simp [hok] at this
        simp [hne]
    · intro f c hf hread
      rw [fetchCmds_files]
      have hm := fetchFold_mem env plan.files_to_read (ctx, [], []) f c hread (Or.inr hf)
      rw [hfold] at hm
      exact hm
    · have hcr : ctx1.command_results = ctx.command_results := by
        have hc := fetchFold_cmds env plan.files_to_read (ctx, [], [])
        rw [hfold] at hc
        exact hc
      rw [fetchCmds_length, hcr]

/-! ## C3: character-level support lemmas -/

theorem takeRun_fst_cons (p : Char → Bool) (c : Char) (t : List Char) :
    (takeRun p (c :: t)).1 = if p c then c :: (takeRun p t).1 else [] := by
  rcases h : takeRun p t with ⟨r, rest⟩
  by_cases hc : p c <;> simp [takeRun, hc, h]

theorem takeRun_prop (p : Char → Bool) (cs : List Char) :
    ∀ x ∈ (takeRun p cs).1, p x = true := by
  induction cs with
  | nil => simp [takeRun]
  | cons c t ih =>
      intro x hx
      rw [takeRun_fst_cons] at hx
      by_cases hc : p c
      · simp only [hc, if_true] at hx
        rcases List.mem_cons.mp hx with rfl | hm
        · exact hc
        · exact ih x hm
      · simp [hc] at hx

theorem scanAllFuel_prop {α : Type} (m : List Char → Option (α × List Char)) (P : α → Prop)
    (hm : ∀ cs a rest, m cs = some (a, rest) → P a) :
    ∀ fuel cs, ∀ a ∈ scanAllFuel m fuel cs, P a := by
  intro fuel
  induction fuel with
  | zero => intro cs a ha; simp [scanAllFuel] at ha
  | succ n ih =>
      intro cs a ha
      cases cs with
      | nil => simp [scanAllFuel] at ha
      | cons c rest =>
          simp only [scanAllFuel] at ha
          cases hmc : m (c :: rest) with
          | some pr =>
              rcases pr with ⟨b, rest'⟩
              rw [hmc] at ha
              rcases List.mem_cons.mp ha with rfl | hmem
              · exact hm _ _ _ hmc
              · exact ih rest' a hmem
          | none =>
              rw [hmc] at ha
              exact ih rest a ha

theorem matchDottedName_no_nl :
    ∀ (cs : List Char) (f : String) (rest : List Char),
      matchDottedName cs = some (f, rest) → nlChar ∉ f.data := by
  intro cs f rest h
  rcases h1 : takeRun isWordChar cs with ⟨a, cs1⟩
  simp only [matchDottedName, h1] at h
  by_cases ha : a.isEmpty
  · simp [ha] at h
  · simp only [ha, Bool.false_eq_true, if_false, Option.bind_eq_bind] at h
    cases h2 : expectChar '.' cs1 with
    | none => rw [h2] at h; simp at h
    | some cs2 =>
        rw [h2] at h
        simp only [Option.some_bind] at h
        rcases h3 : takeRun isWordChar cs2 with ⟨b, cs3⟩
        simp only [h3] at h
        by_cases hb : b.isEmpty
        · simp [hb] at h
        · simp only [hb, Bool.false_eq_true, if_false, Option.some.injEq, Prod.mk.injEq] at h
          obtain ⟨hf, -⟩ := h
          subst hf
          intro hmem
          simp only [String.data] at hmem
          rcases List.mem_append.mp hmem with hma | hmb
          · have := takeRun_prop isWordChar cs nlChar (by rw [h1]; exact hma)
            simp [isWordChar, Char.isAlphanum, Char.isAlpha, Char.isUpper, Char.isLower,
              Char.isDigit, nlChar] at this
          · rcases List.mem_cons.mp hmb with hdot | hmb2
            · simp [nlChar] at hdot
            · have := takeRun_prop isWordChar cs2 nlChar (by rw [h3]; exact hmb2)
              simp [isWordChar, Char.isAlphanum, Char.isAlpha, Char.isUpper, Char.isLower,
                Char.isDigit, nlChar] at this

theorem matchPathWithExt_no_nl (ext : String) (hext : nlChar ∉ ext.toList) :
    ∀ (cs : List Char) (f : String) (rest : List Char),
      matchPathWithExt ext cs = some (f, rest) → nlChar ∉ f.data := by
  intro cs f rest h
  rcases h1 : takeRun (fun c => c.isAlphanum || c = Char.ofNat 95 || c = '/') cs with ⟨a, cs1⟩
  simp only [matchPathWithExt, h1] at h
  by_cases ha : a.isEmpty
  · simp [ha] at h
  · simp only [ha, Bool.false_eq_true, if_false, Option.bind_eq_bind] at h
    cases h2 : expectLit false ('.' :: ext.toList) cs1 with
    | none => rw [h2] at h; simp at h
    | some cs2 =>
        rw [h2] at h
        simp only [Option.some_bind, Option.some.injEq, Prod.mk.injEq] at h
        obtain ⟨hf, -⟩ := h
        subst hf
        intro hmem
        simp only [String.data] at hmem
        rcases List.mem_append.mp hmem with hma | hmb
        · have := takeRun_prop _ cs nlChar (by rw [h1]; exact hma)
          simp [Char.isAlphanum, Char.isAlpha, Char.isUpper, Char.isLower,
            Char.isDigit, nlChar, Char.ofNat] at this
        · rcases List.mem_cons.mp hmb with hdot | hmb2
          · simp [nlChar] at hdot
          · exact hext hmb2

theorem dedupKeepFirst_subset (l : List String) :
    ∀ x ∈ dedupKeepFirst l, x ∈ l := by
  induction l with
  | nil => simp [dedupKeepFirst]
  | cons a t ih =>
      intro x hx
      simp only [dedupKeepFirst] at hx
      rcases List.mem_cons.mp hx with rfl | hm
      · exact List.mem_cons_self _ _
      · exact List.mem_cons_of_mem _ (ih x (List.mem_of_mem_filter hm))

/-- Every extracted file path is newline-free. -/
theorem extractFilePaths_no_nl (text : String) :
    ∀ f ∈ extractFilePaths text, nlChar ∉ f.data := by
  intro f hf
  have hf' := dedupKeepFirst_subset _ f hf
  simp only [extractFilePaths] at hf'
  rcases List.mem_append.mp hf' with h1 | h1
  rcases List.mem_append.mp h1 with h2 | h2
  rcases List.mem_append.mp h2 with h3 | h3
  · exact scanAllFuel_prop matchDottedName (fun g => nlChar ∉ g.data)
      (fun cs a rest hm => matchDottedName_no_nl cs a rest hm) _ _ f h3
  · exact scanAllFuel_prop (matchPathWithExt "py") (fun g => nlChar ∉ g.data)
      (fun cs a rest hm => matchPathWithExt_no_nl "py" (by decide) cs a rest hm) _ _ f h3
  · exact scanAllFuel_prop (matchPathWithExt "js") (fun g => nlChar ∉ g.data)
      (fun cs a rest hm => matchPathWithExt_no_nl "js" (by decide) cs a rest hm) _ _ f h2
  · exact scanAllFuel_prop (matchPathWithExt "ts") (fun g => nlChar ∉ g.data)
      (fun cs a rest hm => matchPathWithExt_no_nl "ts" (by decide) cs a rest hm) _ _ f h1

theorem splitCharList_ne_nil (c : Char) (l : List Char) : splitCharList c l ≠ [] := by
  cases l with
  | nil => simp [splitCharList]
  | cons x t =>
      simp only [splitCharList]
      rcases splitCharList c t with _ | ⟨h, r⟩
      · simp
      · by_cases hx : x = c <;> simp [hx]

theorem splitCharList_no_sep (c : Char) (l : List Char) :
    ∀ piece ∈ splitCharList c l, c ∉ piece := by
  induction l with
  | nil =>
      intro piece hp
      simp only [splitCharList, List.mem_singleton] at hp
      simp [hp]
  | cons x t ih =>
      intro piece hp
      rcases hs : splitCharList c t with _ | ⟨h', r⟩
      · exact absurd hs (splitCharList_ne_nil c t)
      · simp only [splitCharList, hs] at hp
        by_cases hx : x = c
        · simp only [hx, if_pos rfl] at hp
          rcases List.mem_cons.mp hp with rfl | hm
          · simp
          · exact ih piece (by rw [hs]; exact hm)
        · simp only [hx, if_false] at hp
          rcases List.mem_cons.mp hp with rfl | hm
          · intro hcm
            rcases List.mem_cons.mp hcm with heq | hm2
            · exact hx heq.symm
            · exact ih h' (by rw [hs]; exact List.mem_cons_self _ _) hm2
          · exact ih piece (by rw [hs]; exact List.mem_cons_of_mem _ hm)

theorem splitCharList_append_cons (c : Char) (x y : List Char) (hx : c ∉ x) :
    splitCharList c (x ++ c :: y) = x :: splitCharList c y := by
  induction x with
  | nil =>
      simp only [List.nil_append, splitCharList]
      rcases hs : splitCharList c y with _ | ⟨h, r⟩
      · exact absurd hs (splitCharList_ne_nil c y)
      · simp
  | cons a t ih =>
      have ha : a ≠ c := fun h => hx (h ▸ List.mem_cons_self a t)
      have ht : c ∉ t := fun h => hx (List.mem_cons_of_mem a h)
      simp only [List.cons_append, splitCharList, List.append_eq]
      rw [ih ht]
      simp [ha]

theorem splitCharList_of_not_mem (c : Char) (l : List Char) (h : c ∉ l) :
    splitCharList c l = [l] := by
  induction l with
  | nil => rfl
  | cons a t ih =>
      have ha : a ≠ c := fun he => h (he ▸ List.mem_cons_self a t)
      have ht : c ∉ t := fun hm => h (List.mem_cons_of_mem a hm)
      simp only [splitCharList, ih ht]
      simp [ha]

theorem dropWhile_append_of_mem (p : Char → Bool) (l m : List Char)
    (h : ∃ x ∈ l, p x = false) :
    (l ++ m).dropWhile p = l.dropWhile p ++ m := by
  induction l with
  | nil => rcases h with ⟨x, hx, -⟩; simp at hx
  | cons a t ih =>
      by_cases ha : p a
      · rcases h with ⟨x, hx, hpx⟩
        rcases List.mem_cons.mp hx with rfl | hm
        · rw [ha] at hpx; cases hpx
        · simp only [List.cons_append, List.dropWhile_cons, ha, if_pos rfl, if_true]
          exact ih ⟨x, hm, hpx⟩
      · simp only [List.cons_append, List.dropWhile_cons]
        rw [Bool.not_eq_true] at ha
        simp [ha]

theorem exists_not_of_dropWhile_ne_nil (p : Char → Bool) (l : List Char)
    (h : l.dropWhile p ≠ []) : ∃ x ∈ l, p x = false := by
  induction l with
  | nil => simp at h
  | cons a t ih =>
      by_cases ha : p a
      · simp only [List.dropWhile_cons, ha, if_true] at h
        rcases ih h with ⟨x, hx, hpx⟩
        exact ⟨x, List.mem_cons_of_mem a hx, hpx⟩
      · exact ⟨a, List.mem_cons_self a t, (Bool.not_eq_true (p a)) ▸ ha⟩

/-- A line whose `strip()` is truthy contains a non-whitespace character. -/
theorem trim_ne_nil_exists (l : List Char) (h : trimCharList l ≠ []) :
    ∃ x ∈ l, pyWs x = false := by
  unfold trimCharList rtrimC at h
  have h1 : (l.dropWhile pyWs).reverse.dropWhile pyWs ≠ [] := by
    intro he
    rw [he] at h
    exact h rfl
  rcases exists_not_of_dropWhile_ne_nil pyWs _ h1 with ⟨x, hx, hpx⟩
  exact ⟨x, (List.dropWhile_sublist pyWs).subset (List.mem_reverse.mp hx), hpx⟩

theorem mem_joinCharList (c : Char) (L : List (List Char)) (l : List Char) (x : Char)
    (hl : l ∈ L) (hx : x ∈ l) : x ∈ joinCharList c L := by
  induction L with
  | nil => cases hl
  | cons a t ih =>
      cases t with
      | nil =>
          simp only [List.mem_singleton] at hl
          subst hl
          simpa [joinCharList] using hx
      | cons b t' =>
          simp only [joinCharList]
          rcases List.mem_cons.mp hl with rfl | hm
          · exact List.mem_append.mpr (Or.inl hx)
          · exact List.mem_append.mpr (Or.inr (List.mem_cons_of_mem _ (ih hm)))

/-- Right-stripping a text of the form `X ++ "\n" ++ B` where `B` has a
non-whitespace character only touches `B`. -/
theorem rtrimC_append_sep (X B : List Char) (hB : ∃ x ∈ B, pyWs x = false) :
    rtrimC (X ++ nlChar :: B) = X ++ nlChar :: rtrimC B := by
  unfold rtrimC
  rw [List.reverse_append, List.reverse_cons]
  rw [List.append_assoc]
  rw [dropWhile_append_of_mem pyWs B.reverse ([nlChar] ++ X.reverse)
    (by rcases hB with ⟨x, hx, hpx⟩; exact ⟨x, List.mem_reverse.mpr hx, hpx⟩)]
  rw [List.reverse_append, List.reverse_append]
  simp

theorem toList_mk (l : List Char) : String.toList ⟨l⟩ = l := rfl

/-- Lines obtained by splitting on newlines are newline-free. -/
theorem pySplit_line_no_nl (s : String) : ∀ a ∈ pySplit s nlChar, nlChar ∉ a.data := by
  intro a ha
  simp only [pySplit, List.mem_map] at ha
  rcases ha with ⟨piece, hp, rfl⟩
  exact splitCharList_no_sep nlChar s.toList piece hp

/-- `--- a/<path>` matches the file-header pattern for any path. -/
theorem fileHeaderMatch_dashes (f : String) : fileHeaderMatch ("--- a/" ++ f) = true := by
  have hd : ("--- a/" ++ f).toList =
      '-' :: '-' :: '-' :: ' ' :: 'a' :: '/' :: f.toList := rfl
  unfold fileHeaderMatch pyStartsWith
  rw [hd]
  simp [List.isPrefixOf, pyWs]

/-- Joining `h1`, `h2`, the placeholder hunk header, and body lines that
each hold a non-whitespace character produces text that passes
`_is_valid_diff`. -/
theorem isValidDiff_join_headers (h1 h2 : String) (body : List String)
    (hh1 : fileHeaderMatch h1 = true)
    (hn1 : nlChar ∉ h1.data) (hn2 : nlChar ∉ h2.data)
    (hbody : ∀ b ∈ body, (∃ x ∈ b.data, pyWs x = false) ∧ nlChar ∉ b.data) :
    isValidDiff (joinNl (h1 :: h2 :: "@@ -1,1 +1,1 @@" :: body)) = true := by
  have hstart : ∃ c t, h1.data = c :: t ∧ pyWs c = false := by
    have h' := hh1
    unfold fileHeaderMatch at h'
    rw [Bool.and_eq_true] at h'
    rcases h' with ⟨h1', -⟩
    rw [Bool.or_eq_true] at h1'
    rcases h1' with hp | hp
    · unfold pyStartsWith at hp
      rcases List.isPrefixOf_iff_prefix.mp hp with ⟨t, ht⟩
      refine ⟨'-', '-' :: '-' :: t, ?_, by decide⟩
      show h1.toList = _
      rw [← ht]
      rfl
    · unfold pyStartsWith at hp
      rcases List.isPrefixOf_iff_prefix.mp hp with ⟨t, ht⟩
      refine ⟨'+', '+' :: '+' :: t, ?_, by decide⟩
      show h1.toList = _
      rw [← ht]
      rfl
  have hkAt : ('@' : Char) ∈ ("@@ -1,1 +1,1 @@" : String).data := by decide
  have hkWs : pyWs '@' = false := by decide
  have hkNoNl : nlChar ∉ ("@@ -1,1 +1,1 @@" : String).data := by decide
  -- the character-level text and its tail past the two file headers
  cases body with
  | nil =>
      show isValidDiff ⟨joinCharList nlChar
        [h1.data, h2.data, ("@@ -1,1 +1,1 @@" : String).data]⟩ = true
      have hshape : joinCharList nlChar
          [h1.data, h2.data, ("@@ -1,1 +1,1 @@" : String).data] =
          h1.data ++ nlChar :: (h2.data ++ nlChar :: ("@@ -1,1 +1,1 @@" : String).data) := by
        simp [joinCharList]
      unfold isValidDiff pySplit pyStrip
      rw [hshape]
      have hdw : List.dropWhile pyWs
          (h1.data ++ nlChar :: (h2.data ++ nlChar :: ("@@ -1,1 +1,1 @@" : String).data)) =
          h1.data ++ nlChar :: (h2.data ++ nlChar :: ("@@ -1,1 +1,1 @@" : String).data) := by
        rcases hstart with ⟨c, t, hct, hcw⟩
        rw [hct, List.cons_append, List.dropWhile_cons]
        simp [hcw]
      show (((splitCharList nlChar (trimCharList _)).map _).any _ &&
        ((splitCharList nlChar (trimCharList _)).map _).any _) = true
      unfold trimCharList
      simp only [toList_mk]
      rw [hdw]
      rw [rtrimC_append_sep _ _ ⟨'@', by
        exact List.mem_append.mpr (Or.inr (List.mem_cons_of_mem _ hkAt)), hkWs⟩]
      rw [rtrimC_append_sep _ _ ⟨'@', hkAt, hkWs⟩]
      rw [show rtrimC ("@@ -1,1 +1,1 @@" : String).data =
        ("@@ -1,1 +1,1 @@" : String).data from by decide]
      rw [splitCharList_append_cons _ _ _ hn1, splitCharList_append_cons _ _ _ hn2,
        splitCharList_of_not_mem _ _ hkNoNl]
      simp only [List.map_cons, List.map_nil, List.any_cons, List.any_nil]
      have e1 : (⟨h1.data⟩ : String) = h1 := rfl
      have e2 : (⟨h2.data⟩ : String) = h2 := rfl
      rw [e1, e2]
      simp [hh1, show hunkHeaderMatch ⟨("@@ -1,1 +1,1 @@" : String).data⟩ = true from by decide]
  | cons b bs =>
      show isValidDiff ⟨joinCharList nlChar
        (h1.data :: h2.data :: ("@@ -1,1 +1,1 @@" : String).data
          :: (b :: bs).map String.toList)⟩ = true
      have hshape : joinCharList nlChar
          (h1.data :: h2.data :: ("@@ -1,1 +1,1 @@" : String).data
            :: (b :: bs).map String.toList) =
          h1.data ++ nlChar :: (h2.data ++ nlChar :: (("@@ -1,1 +1,1 @@" : String).data
            ++ nlChar :: joinCharList nlChar ((b :: bs).map String.toList))) := by
        simp [joinCharList]
      have hbx : ∃ x ∈ joinCharList nlChar ((b :: bs).map String.toList), pyWs x = false := by
        rcases hbody b (by simp) with ⟨⟨x, hx, hxw⟩, -⟩
        exact ⟨x, mem_joinCharList nlChar _ b.data x (by simp [String.toList]) hx, hxw⟩
      unfold isValidDiff pySplit pyStrip
      rw [hshape]
      have hdw : List.dropWhile pyWs
          (h1.data ++ nlChar :: (h2.data ++ nlChar :: (("@@ -1,1 +1,1 @@" : String).data
            ++ nlChar :: joinCharList nlChar ((b :: bs).map String.toList)))) =
          h1.data ++ nlChar :: (h2.data ++ nlChar :: (("@@ -1,1 +1,1 @@" : String).data
            ++ nlChar :: joinCharList nlChar ((b :: bs).map String.toList))) := by
        rcases hstart with ⟨c, t, hct, hcw⟩
        rw [hct, List.cons_append, List.dropWhile_cons]
        simp [hcw]
      show (((splitCharList nlChar (trimCharList _)).map _).any _ &&
        ((splitCharList nlChar (trimCharList _)).map _).any _) = true
      unfold trimCharList
      simp only [toList_mk]
      rw [hdw]
      rw [rtrimC_append_sep _ _ ⟨'@', by
        refine List.mem_append.mpr (Or.inr (List.mem_cons_of_mem _ ?_))
        exact List.mem_append.mpr (Or.inl hkAt), hkWs⟩]
      rw [rtrimC_append_sep _ _ ⟨'@', List.mem_append.mpr (Or.inl hkAt), hkWs⟩]
      rw [rtrimC_append_sep _ _ hbx]
      rw [splitCharList_append_cons _ _ _ hn1, splitCharList_append_cons _ _ _ hn2,
        splitCharList_append_cons _ _ _ hkNoNl]
      simp only [List.map_cons, List.any_cons]
      have e1 : (⟨h1.data⟩ : String) = h1 := rfl
      have e2 : (⟨h2.data⟩ : String) = h2 := rfl
      rw [e1, e2]
      simp [hh1, show hunkHeaderMatch ⟨("@@ -1,1 +1,1 @@" : String).data⟩ = true from by decide]

/-- Properties of the repaired-diff body lines, for any per-line rewriting
that keeps the line or prepends a context space and requires a truthy
stripped line. -/
theorem bodyLine_props (s : String) (f : String → Option String)
    (hf : ∀ a b, f a = some b → (b = a ∨ b = " " ++ a) ∧ pyTruthy (pyStrip a) = true) :
    ∀ b ∈ (pySplit s nlChar).filterMap f,
      (∃ x ∈ b.data, pyWs x = false) ∧ nlChar ∉ b.data := by
  intro b hb
  rcases List.mem_filterMap.mp hb with ⟨a, ha, hfa⟩
  obtain ⟨hba, htr⟩ := hf a b hfa
  have hnl : nlChar ∉ a.data := pySplit_line_no_nl s a ha
  have hex : ∃ x ∈ a.data, pyWs x = false := by
    apply trim_ne_nil_exists
    intro hnil
    have hps : pyStrip a = "" := by
      unfold pyStrip
      rw [show a.toList = a.data from rfl, hnil]
    unfold pyTruthy at htr
    rw [hps] at htr
    simp at htr
  rcases hba with rfl | rfl
  · exact ⟨hex, hnl⟩
  · have hdata : (" " ++ a).data = ' ' :: a.data := rfl
    constructor
    · rcases hex with ⟨x, hx, hxw⟩
      refine ⟨x, ?_, hxw⟩
      rw [hdata]
      exact List.mem_cons_of_mem _ hx
    · rw [hdata]
      intro hm
      rcases List.mem_cons.mp hm with he | hm2
      · exact absurd he (by decide)
      · exact hnl hm2

/-- `_create_basic_diff` always yields text passing `_is_valid_diff`. -/
theorem createBasicDiff_valid (content : String) :
    isValidDiff (createBasicDiff content) = true := by
  unfold createBasicDiff
  have hbody := bodyLine_props (pyStrip content)
    (fun line =>
      if pyTruthy (pyStrip line) then
        if !(pyStartsWith line "+" || pyStartsWith line "-" || pyStartsWith line " ") then
          some (" " ++ line)
        else some line
      else none)
    (by
      intro a b hab
      by_cases hta : pyTruthy (pyStrip a) = true
      · simp only [hta, if_true] at hab
        by_cases hpa : (pyStartsWith a "+" || pyStartsWith a "-" || pyStartsWith a " ") = true
        · simp only [hpa, Bool.not_true, Bool.false_eq_true, if_false,
            Option.some.injEq] at hab
          exact ⟨Or.inl hab.symm, hta⟩
        · simp only [Bool.not_eq_true] at hpa
          simp only [hpa, Bool.not_false, if_true, Option.some.injEq] at hab
          exact ⟨Or.inr hab.symm, hta⟩
      · simp only [Bool.not_eq_true] at hta
        simp only [hta, Bool.false_eq_true, if_false] at hab
        exact Option.noConfusion hab)
  dsimp only
  split
  · exact isValidDiff_join_headers "--- /dev/null" "+++ b/new_file" _
      (by decide) (by decide) (by decide) hbody
  · split
    · exact isValidDiff_join_headers "--- a/existing_file" "+++ /dev/null" _
        (by decide) (by decide) (by decide) hbody
    · exact isValidDiff_join_headers "--- a/existing_file" "+++ b/existing_file" _
        (by decide) (by decide) (by decide) hbody

/-- `_repair_diff` always yields text passing `_is_valid_diff`. -/
theorem repairDiff_valid (c : String) : isValidDiff (repairDiff c) = true := by
  unfold repairDiff
  cases hfp : extractFilePaths c with
  | nil => exact createBasicDiff_valid c
  | cons f rest =>
      have hfn : nlChar ∉ f.data :=
        extractFilePaths_no_nl c f (by rw [hfp]; exact List.mem_cons_self _ _)
      have hlit1 : nlChar ∉ ("--- a/" : String).data := by decide
      have hlit2 : nlChar ∉ ("+++ b/" : String).data := by decide
      refine isValidDiff_join_headers ("--- a/" ++ f) ("+++ b/" ++ f) _
        (fileHeaderMatch_dashes f) ?_ ?_ ?_
      · show nlChar ∉ ("--- a/" : String).data ++ f.data
        intro hm
        rcases List.mem_append.mp hm with hm1 | hm2
        · exact hlit1 hm1
        · exact hfn hm2
      · show nlChar ∉ ("+++ b/" : String).data ++ f.data
        intro hm
        rcases List.mem_append.mp hm with hm1 | hm2
        · exact hlit2 hm1
        · exact hfn hm2
      · exact bodyLine_props (pyStrip c)
          (fun line =>
            if pyTruthy (pyStrip line) &&
                !(pyStartsWith line "---" || pyStartsWith line "+++" ||
                  pyStartsWith line "@@") then
              if pyStartsWith line "+" || pyStartsWith line "-" then some line
              else some (" " ++ line)
            else none)
          (by
            intro a b hab
            by_cases hc : (pyTruthy (pyStrip a) &&
                !(pyStartsWith a "---" || pyStartsWith a "+++" ||
                  pyStartsWith a "@@")) = true
            · simp only [hc, if_true] at hab
              have hta : pyTruthy (pyStrip a) = true := by
                have hc2 := hc
                rw [Bool.and_eq_true] at hc2
                exact hc2.1
              by_cases hpa : (pyStartsWith a "+" || pyStartsWith a "-") = true
              · simp only [hpa, if_true, Option.some.injEq] at hab
                exact ⟨Or.inl hab.symm, hta⟩
              · simp only [Bool.not_eq_true] at hpa
                simp only [hpa, Bool.false_eq_true, if_false, Option.some.injEq] at hab
                exact ⟨Or.inr hab.symm, hta⟩
            · simp only [Bool.not_eq_true] at hc
              simp only [hc, Bool.false_eq_true, if_false] at hab
              exact Option.noConfusion hab)

/-- C3, counterexample: an input consisting of a lone `---` header and a
hunk header already passes `_is_valid_diff` (the check counts any file
header, not a pair) and is returned unchanged — the output contains no
`+++` line, so it has no matching `---`/`+++` pair. -/
theorem c3_lone_file_header_no_pair :
    validateAndRepairDiff "--- a/x.py\n@@ -1,1 +1,1 @@" =
      some "--- a/x.py\n@@ -1,1 +1,1 @@" ∧
    ((pySplit "--- a/x.py\n@@ -1,1 +1,1 @@" nlChar).any
      (fun l => pyStartsWith l "+++")) = false :=
  ⟨rfl, rfl⟩

/-- C3 (amended): whenever `validate_and_repair_diff` returns — it raises
`IndexError` exactly when the stripped input is a single line opening a
markdown fence — the returned text passes `_is_valid_diff`: some line
matches the `---`/`+++` file-header pattern and some line matches the
`@@ ... @@` hunk pattern. A matching `---`/`+++` *pair* is not guaranteed
on the already-valid path, which accepts a lone `---` (or lone `+++`)
header. -/
theorem c3_amended_diff_output_headers (s out : String)
    (h : validateAndRepairDiff s = some out) : isValidDiff out = true := by
  unfold validateAndRepairDiff at h
  cases hsf : stripFences (pyStrip s) with
  | none =>
      rw [hsf] at h
      cases h
  | some cleaned =>
      rw [hsf] at h
      by_cases hv : isValidDiff cleaned = true
      · simp only [hv, if_true, Option.some.injEq] at h
        subst h
        exact hv
      · simp only [Bool.not_eq_true] at hv
        simp only [hv, Bool.false_eq_true, if_false, Option.some.injEq] at h
        subst h
        exact repairDiff_valid cleaned

/-- Witness for C3 (amended): the empty input is repaired into a basic
diff that passes the validity check. -/
theorem c3_amended_diff_output_headers_witness :
    isValidDiff "--- a/existing_file\n+++ b/existing_file\n@@ -1,1 +1,1 @@" = true :=
  c3_amended_diff_output_headers ""
    "--- a/existing_file\n+++ b/existing_file\n@@ -1,1 +1,1 @@" rfl

/-! ## C6 and C10: apply_patch strategy discipline -/

theorem takeUntilSuccess_congr {α : Type} (p q : α → Bool) (l : List α)
    (h : ∀ x ∈ l, p x = q x) : takeUntilSuccess p l = takeUntilSuccess q l := by
  induction l with
  | nil => rfl
  | cons x t ih =>
      simp only [takeUntilSuccess, h x (by simp)]
      rw [ih (fun y hy => h y (by simp [hy]))]

theorem firstSuccess_congr {α : Type} (p q : α → Bool) (l : List α)
    (h : ∀ x ∈ l, p x = q x) : firstSuccess p l = firstSuccess q l := by
  induction l with
  | nil => rfl
  | cons x t ih =>
      simp only [firstSuccess, h x (by simp)]
      rw [ih (fun y hy => h y (by simp [hy]))]

/-- The strategy loop returns the first passing strategy's result and
attempts exactly the prefix up to and including it. -/
theorem runGitStrategies_spec (env : ApplyEnv) (diff : String) (L : List (List String))
    (e0 : String) :
    (runGitStrategies env diff L e0).1 =
      (firstSuccess
        (fun s => decide ((env.runGitApply s diff).returncode = 0) &&
          strContains (joinSp s) "apply") L).map (fun s => env.runGitApply s diff) ∧
    (runGitStrategies env diff L e0).2.2 =
      takeUntilSuccess
        (fun s => decide ((env.runGitApply s diff).returncode = 0) &&
          strContains (joinSp s) "apply") L := by
  induction L generalizing e0 with
  | nil => exact ⟨rfl, rfl⟩
  | cons s rest ih =>
      simp only [runGitStrategies, firstSuccess, takeUntilSuccess]
      by_cases hc : (decide ((env.runGitApply s diff).returncode = 0) &&
          strContains (joinSp s) "apply") = true
      · simp [hc]
      · simp only [Bool.not_eq_true] at hc
        simp [hc, ih (env.runGitApply s diff).stderr]

/-- Likewise for the patch-utility fallback loop. -/
theorem runPatchFallback_spec (env : ApplyEnv) (diff : String) (P : List String) :
    (runPatchFallback env diff P).1 =
      (firstSuccess (fun lvl => decide ((env.runPatchUtil lvl diff).returncode = 0)) P).map
        (fun lvl => env.runPatchUtil lvl diff) ∧
    (runPatchFallback env diff P).2.2 =
      takeUntilSuccess (fun lvl => decide ((env.runPatchUtil lvl diff).returncode = 0)) P := by
  induction P with
  | nil => exact ⟨rfl, rfl⟩
  | cons lvl rest ih =>
      simp only [runPatchFallback, firstSuccess, takeUntilSuccess]
      by_cases hc : (env.runPatchUtil lvl diff).returncode = 0
      · rw [if_pos hc]
        simp [hc]
      · rw [if_neg hc]
        simp [hc, ih]

/-- Every claimed strategy's argument vector contains `apply`. -/
theorem claimStrategyOrder_contains_apply (b : Bool) :
    ∀ s ∈ claimStrategyOrder b, strContains (joinSp s) "apply" = true := by
  cases b <;> intro s hs <;> simp [claimStrategyOrder] at hs
  · rcases hs with rfl | rfl | rfl | rfl | rfl <;> decide
  · rcases hs with rfl | rfl | rfl | rfl | rfl | rfl <;> decide

/-- C6: on a diff that survives format validation, `apply_patch` attempts
the apply-tool strategies in exactly the claimed order — preflight check,
default apply, strip levels 0, 1, 2, and the three-way merge exactly when
the diff carries git-style index metadata — stopping at the first exit
status 0 and returning that strategy's result; only if all of them fail
does it try the patch utility at strip levels 0, 1, 2 in turn, again
stopping at the first exit status 0. -/
theorem c6_apply_strategy_order (env : ApplyEnv) (d : String)
    (hvalid : isValidDiffFormat (preprocessDiff d) = true) :
    (applyPatch env d).2 =
      (takeUntilSuccess
          (fun s => decide ((env.runGitApply s
            (normalizeDiffPaths (preprocessDiff d))).returncode = 0))
          (claimStrategyOrder
            (strContains (normalizeDiffPaths (preprocessDiff d)) "diff --git" &&
             strContains (normalizeDiffPaths (preprocessDiff d)) "index "))).map
        ApplyAttempt.git ++
      (match firstSuccess
          (fun s => decide ((env.runGitApply s
            (normalizeDiffPaths (preprocessDiff d))).returncode = 0))
          (claimStrategyOrder
            (strContains (normalizeDiffPaths (preprocessDiff d)) "diff --git" &&
             strContains (normalizeDiffPaths (preprocessDiff d)) "index ")) with
       | some _ => []
       | none =>
          (takeUntilSuccess
            (fun lvl => decide ((env.runPatchUtil lvl
              (normalizeDiffPaths (preprocessDiff d))).returncode = 0))
            patchFallbackLevels).map ApplyAttempt.patchUtil) ∧
    (match firstSuccess
        (fun s => decide ((env.runGitApply s
          (normalizeDiffPaths (preprocessDiff d))).returncode = 0))
        (claimStrategyOrder
          (strContains (normalizeDiffPaths (preprocessDiff d)) "diff --git" &&
           strContains (normalizeDiffPaths (preprocessDiff d)) "index ")) with
     | some s => (applyPatch env d).1 =
        env.runGitApply s (normalizeDiffPaths (preprocessDiff d))
     | none =>
        match firstSuccess
            (fun lvl => decide ((env.runPatchUtil lvl
              (normalizeDiffPaths (preprocessDiff d))).returncode = 0))
            patchFallbackLevels with
        | some lvl => (applyPatch env d).1 =
            env.runPatchUtil lvl (normalizeDiffPaths (preprocessDiff d))
        | none => (applyPatch env d).1.returncode = 1) := by
  unfold applyPatch
  simp only [hvalid, Bool.not_true, Bool.false_eq_true, if_false]
  generalize normalizeDiffPaths (preprocessDiff d) = diff
  have hb : (gitBaseStrategies ++
      (if strContains diff "diff --git" && strContains diff "index " then
        [["git", "apply", "-3"]]
      else [])) =
      claimStrategyOrder
        (strContains diff "diff --git" && strContains diff "index ") := rfl
  rw [hb]
  set b := strContains diff "diff --git" && strContains diff "index " with hbdef
  have hcong1 := takeUntilSuccess_congr
    (fun s => decide ((env.runGitApply s diff).returncode = 0) &&
      strContains (joinSp s) "apply")
    (fun s => decide ((env.runGitApply s diff).returncode = 0))
    (claimStrategyOrder b)
    (fun s hs => by simp [claimStrategyOrder_contains_apply b s hs])
  have hcong2 := firstSuccess_congr
    (fun s => decide ((env.runGitApply s diff).returncode = 0) &&
      strContains (joinSp s) "apply")
    (fun s => decide ((env.runGitApply s diff).returncode = 0))
    (claimStrategyOrder b)
    (fun s hs => by simp [claimStrategyOrder_contains_apply b s hs])
  rcases hg : runGitStrategies env diff (claimStrategyOrder b) "" with ⟨res, le, tr⟩
  have hspec := runGitStrategies_spec env diff (claimStrategyOrder b) ""
  rw [hg] at hspec
  obtain ⟨hres, htr⟩ := hspec
  simp only at hres htr
  rw [hcong2] at hres
  rw [hcong1] at htr
  cases hfs : firstSuccess
      (fun s => decide ((env.runGitApply s diff).returncode = 0))
      (claimStrategyOrder b) with
  | some s =>
      rw [hfs] at hres
      simp only [Option.map_some'] at hres
      subst hres
      subst htr
      simp [hfs]
  | none =>
      rw [hfs] at hres
      simp only [Option.map_none'] at hres
      subst hres
      subst htr
      rw [show runPatchFallback env diff ["-p0", "-p1", "-p2"]
        = runPatchFallback env diff patchFallbackLevels from rfl]
      rcases hpf : runPatchFallback env diff patchFallbackLevels with ⟨pres, plast, ptr⟩
      have hpspec := runPatchFallback_spec env diff patchFallbackLevels
      rw [hpf] at hpspec
      obtain ⟨hpres, hptr⟩ := hpspec
      simp only at hpres hptr
      cases hpfs : firstSuccess
          (fun lvl => decide ((env.runPatchUtil lvl diff).returncode = 0))
          patchFallbackLevels with
      | some lvl =>
          rw [hpfs] at hpres
          simp only [Option.map_some'] at hpres
          subst hpres
          subst hptr
          simp [hfs, hpfs, hpf]
      | none =>
          rw [hpfs] at hpres
          simp only [Option.map_none'] at hpres
          subst hpres
          subst hptr
          simp [hfs, hpfs, hpf]

/-- Witness for C6: only strip level 1 succeeds; the first four strategies
are attempted, in order, and the fifth and the fallback never run. -/
theorem c6_apply_strategy_order_witness :
    (applyPatch c6Env c6Diff).2 =
      [ApplyAttempt.git ["git", "apply", "--check"],
       ApplyAttempt.git ["git", "apply", "--whitespace=fix", "--ignore-whitespace"],
       ApplyAttempt.git ["git", "apply", "-p0", "--whitespace=fix", "--ignore-whitespace"],
       ApplyAttempt.git ["git", "apply", "-p1", "--whitespace=fix", "--ignore-whitespace"]] ∧
    (applyPatch c6Env c6Diff).1 = ⟨0, "", ""⟩ := by
  have h := c6_apply_strategy_order c6Env c6Diff (by decide)
  exact ⟨h.1, h.2⟩

/-- C10: when the preflight `git apply --check` exits 0, `apply_patch`
returns that result at once — no tree-mutating strategy is attempted — and
the APPLY step wrapping it reports COMPLETED although the working tree was
only checked, never modified. -/
theorem c10_preflight_check_short_circuit (env : ApplyEnv) (st : LoopState) (patch : Patch)
    (hp : st.current_patch = some patch) (hdry : st.dry_run = false)
    (hvalid : isValidDiffFormat (preprocessDiff patch.unified_diff) = true)
    (hcheck : (env.runGitApply ["git", "apply", "--check"]
      (normalizeDiffPaths (preprocessDiff patch.unified_diff))).returncode = 0) :
    (applyPatch env patch.unified_diff).2 = [ApplyAttempt.git ["git", "apply", "--check"]] ∧
    (applyPatch env patch.unified_diff).1 =
      env.runGitApply ["git", "apply", "--check"]
        (normalizeDiffPaths (preprocessDiff patch.unified_diff)) ∧
    (execApplyStep (fun dd => (applyPatch env dd).1) st).status = .completed := by
  have h := c6_apply_strategy_order env patch.unified_diff hvalid
  set diff := normalizeDiffPaths (preprocessDiff patch.unified_diff) with hdiff
  set b := strContains diff "diff --git" && strContains diff "index " with hbdef
  have hfirst : firstSuccess
      (fun s => decide ((env.runGitApply s diff).returncode = 0))
      (claimStrategyOrder b) = some ["git", "apply", "--check"] := by
    have : claimStrategyOrder b = ["git", "apply", "--check"] ::
        (claimStrategyOrder b).tail := by cases b <;> rfl
    rw [this]
    simp [firstSuccess, hcheck]
  have htake : takeUntilSuccess
      (fun s => decide ((env.runGitApply s diff).returncode = 0))
      (claimStrategyOrder b) = [["git", "apply", "--check"]] := by
    have : claimStrategyOrder b = ["git", "apply", "--check"] ::
        (claimStrategyOrder b).tail := by cases b <;> rfl
    rw [this]
    simp [takeUntilSuccess, hcheck]
  obtain ⟨h1, h2⟩ := h
  rw [hfirst] at h1 h2
  rw [htake] at h1
  simp only [List.map_cons, List.map_nil, List.append_nil] at h1
  refine ⟨h1, h2, ?_⟩
  unfold execApplyStep
  rw [hp, hdry]
  simp only [Bool.false_eq_true, if_false]
  rw [h2]
  simp [hcheck]

/-- Witness for C10: the preflight check succeeds on `c6Diff`; only the
check strategy is attempted and the APPLY step completes. -/
theorem c10_preflight_check_short_circuit_witness :
    (applyPatch c10Env c6Diff).2 = [ApplyAttempt.git ["git", "apply", "--check"]] ∧
    (execApplyStep (fun dd => (applyPatch c10Env dd).1) c10State).status = .completed := by
  have h := c10_preflight_check_short_circuit c10Env c10State ⟨c6Diff⟩ rfl rfl (by decide) (by decide)
  exact ⟨h.1, h.2.2⟩

/-! ## C7 -/

/-- The gated runner executes a prefix of the requested step sequence. -/
theorem gatedRun_trace_prefix (env : Env) :
    ∀ (ts : List StepType) (st : LoopState) (ctx : ModelContext),
      ((gatedRun env st ctx ts).2.2).map Prod.fst <+: ts := by
  intro ts
  induction ts with
  | nil => intro st ctx; simp [gatedRun]
  | cons t rest ih =>
      intro st ctx
      rcases he : execStep env st ctx t with ⟨st', ctx'⟩
      rcases hrg : gatedRun env st' ctx' rest with ⟨st'', ctx'', tr⟩
      simp only [gatedRun, he, hrg]
      by_cases hg : st'.canContinue = true
      · simp only [hg, if_true, List.map_cons]
        refine List.cons_prefix_cons.mpr ⟨rfl, ?_⟩
        have := ih st' ctx'
        rw [hrg] at this
        exact this
      · simp only [hg, if_false, List.map_cons, List.map_nil]
        exact List.cons_prefix_cons.mpr ⟨rfl, List.nil_prefix⟩

/-- Every step the gated runner executes begins in a state where
`can_continue` holds. -/
theorem gatedRun_states (env : Env) :
    ∀ (ts : List StepType) (st : LoopState) (ctx : ModelContext),
      st.canContinue = true →
      ∀ p ∈ (gatedRun env st ctx ts).2.2, p.2.canContinue = true := by
  intro ts
  induction ts with
  | nil => intro st ctx h p hp; simp [gatedRun] at hp
  | cons t rest ih =>
      intro st ctx h p hp
      rcases he : execStep env st ctx t with ⟨st', ctx'⟩
      rcases hrg : gatedRun env st' ctx' rest with ⟨st'', ctx'', tr⟩
      simp only [gatedRun, he, hrg] at hp
      by_cases hg : st'.canContinue = true
      · simp only [hg, if_true] at hp
        rcases List.mem_cons.mp hp with heq | hmem
        · subst heq; exact h
        · have := ih st' ctx' hg p
          rw [hrg] at this
          exact this hmem
      · simp only [hg, if_false] at hp
        rcases List.mem_cons.mp hp with heq | hmem
        · subst heq; exact h
        · simp at hmem

/-- The instrumented iteration's executed-step list agrees with the gated
runner on the fixed six-step sequence. -/
theorem execSingleIterationTr_trace (env : Env) (st : LoopState) (ctx : ModelContext) :
    (execSingleIterationTr env st ctx).2.2 =
      ((gatedRun env st ctx iterationSteps).2.2).map Prod.fst := by
  rcases h1 : execStep env st ctx .plan with ⟨s1, c1⟩
  rcases h2 : execStep env s1 c1 .fetch_files with ⟨s2, c2⟩
  rcases h3 : execStep env s2 c2 .propose_patch with ⟨s3, c3⟩
  rcases h4 : execStep env s3 c3 .apply with ⟨s4, c4⟩
  rcases h5 : execStep env s4 c4 .run_tests with ⟨s5, c5⟩
  rcases h6 : execStep env s5 c5 .reflect with ⟨s6, c6⟩
  simp only [execSingleIterationTr, gatedRun, iterationSteps, h1, h2, h3, h4, h5, h6]
  by_cases g1 : s1.canContinue = true
  · simp only [g1, Bool.not_true, Bool.false_eq_true, if_false, if_true]
    by_cases g2 : s2.canContinue = true
    · simp only [g2, Bool.not_true, Bool.false_eq_true, if_false, if_true]
      by_cases g3 : s3.canContinue = true
      · simp only [g3, Bool.not_true, Bool.false_eq_true, if_false, if_true]
        by_cases g4 : s4.canContinue = true
        · simp only [g4, Bool.not_true, Bool.false_eq_true, if_false, if_true]
          by_cases g5 : s5.canContinue = true
          · simp only [g5, Bool.not_true, Bool.false_eq_true, if_false, if_true]
            by_cases g6 : s6.canContinue = true <;> simp [g6]
          · simp [g5]
        · simp [g4]
      · simp [g3]
    · simp [g2]
  · simp [g1]

/-- C7: within an iteration entered with `can_continue` true, the executed
steps form a prefix of the fixed order PLAN, FETCH_FILES, PROPOSE_PATCH,
APPLY, RUN_TESTS, REFLECT, and every executed step begins in a state in
which `can_continue` still holds (no step begins once it is false). -/
theorem c7_iteration_order_and_gating (env : Env) (st : LoopState) (ctx : ModelContext)
    (h : st.canContinue = true) :
    (execSingleIterationTr env st ctx).2.2 =
      ((gatedRun env st ctx iterationSteps).2.2).map Prod.fst ∧
    (execSingleIterationTr env st ctx).2.2 <+: iterationSteps ∧
    ∀ p ∈ (gatedRun env st ctx iterationSteps).2.2, p.2.canContinue = true := by
  refine ⟨execSingleIterationTr_trace env st ctx, ?_, gatedRun_states env _ st ctx h⟩
  rw [execSingleIterationTr_trace env st ctx]
  exact gatedRun_trace_prefix env iterationSteps st ctx

/-- Witness for C7: a fully benign iteration executes all six steps in
order, each beginning with `can_continue` true. -/
theorem c7_iteration_order_and_gating_witness :
    (execSingleIterationTr c7Env c7State {}).2.2 =
      ((gatedRun c7Env c7State {} iterationSteps).2.2).map Prod.fst ∧
    (execSingleIterationTr c7Env c7State {}).2.2 <+: iterationSteps ∧
    ∀ p ∈ (gatedRun c7Env c7State {} iterationSteps).2.2, p.2.canContinue = true :=
  c7_iteration_order_and_gating c7Env c7State {} rfl

/-- Witness for C8: one readable and one unreadable file, one failing
command. -/
theorem c8_fetch_files_contract_witness :
    (execFetchFilesStep c8Env c8State {}).1.status = .completed ∧
    strDictGet (execFetchFilesStep c8Env c8State {}).2.file_contents "a.py"
      = some "print(1)" ∧
    (execFetchFilesStep c8Env c8State {}).2.command_results.length = 1 :=
  have h := (c8_fetch_files_contract c8Env c8State {}).2
    ⟨["a.py", "b.py"], ["pytest"], "read the sources"⟩ rfl
  ⟨h.1.mpr ⟨"a.py", by simp, rfl⟩, h.2.1 "a.py" "print(1)" (by simp) rfl, h.2.2⟩

end Kevin
